import Mathlib

/-! SpiBus (DuinoPlusPlus-Core): a shallow embedding of `SpiBus.cpp`.

The driver talks to memory-mapped AVR registers.  The embedding keeps

* the machine state `Hw`: the GPIO register file (indexed by data-space
  address, so that `csDdr = csPort - 1` and aliasing with `DDRB` are kept),
  the SPI control / status / data registers, the function-local static
  `isInit` of `SpiBus::init`, a counter of the byte exchanges made so far,
  and a ghost log of every register store, status poll, delay and diagnostic;
* the environment `Device`: what the SPI peripheral and the microsecond
  counter answer during each byte exchange;
* the build configuration `Config` (the macros of the missing `SpiBus.h`)
  and the target `Platform` (the register addresses of the AVR headers).

C integer types follow avr-gcc: `int` is 16 bits, `unsigned long` is 32 bits,
`uint8_t` values are reduced modulo 256 where they are stored.
-/

namespace SpiBus

/-! ## Constants of the AVR headers (bit positions inside SPCR / SPSR) -/

/-- Bit position of SPI enable in SPCR. -/
def SPE : Nat := 6
/-- Bit position of the data order flag in SPCR. -/
def DORD : Nat := 5
/-- Bit position of the master select flag in SPCR. -/
def MSTR : Nat := 4
/-- Bit position of the clock polarity flag in SPCR. -/
def CPOL : Nat := 3
/-- Bit position of the clock phase flag in SPCR. -/
def CPHA : Nat := 2
/-- Bit position of the double speed flag in SPSR. -/
def SPI2X : Nat := 0
/-- Bit position of the transfer complete flag in SPSR. -/
def SPIF : Nat := 7
/-- Bit position of the write collision flag in SPSR. -/
def WCOL : Nat := 6

/-! ## Build configuration and platform -/

/-- The compile-time macros that `SpiBus.cpp` takes from `SpiBus.h` and from
the build: they are parameters of the embedding. -/
structure Config where
  /-- Base clock frequency, the macro F_CPU. -/
  F_CPU : Nat
  /-- Target bus frequency, the macro SPI_SPEED. -/
  SPI_SPEED : Nat
  /-- Bit order macro (only its lowest bit is used). -/
  SPI_LSB_FIRST : Nat
  /-- Clock polarity macro (only its lowest bit is used). -/
  SPI_LEADING_FALLING : Nat
  /-- Clock phase macro (only its lowest bit is used). -/
  SPI_LEADING_SETUP : Nat
  /-- Per-byte timeout bound in microseconds. -/
  SPI_TIMEOUT_US : Nat
  /-- Whether the diagnostic sink ERROR_PRINT is defined. -/
  errorPrint : Bool

/-- The register layout of the target processor, from the AVR headers. -/
structure Platform where
  /-- For each of PORTA .. PORTH that the headers define: the address of the
  output register and the address of the direction register. -/
  banks : List (Nat × Nat)
  /-- Address of DDRB. -/
  DDRB : Nat
  /-- Mask of the MOSI and CLK pins inside DDRB:
  `(1<<DDB1)|(1<<DDB2)` or `(1<<DDB3)|(1<<DDB5)`. -/
  spiOut : Nat

/-- ATmega328P: banks B, C, D; MOSI = PB3, SCK = PB5. -/
def atmega328p : Platform :=
  { banks := [(0x25, 0x24), (0x28, 0x27), (0x2B, 0x2A)]
    DDRB := 0x24
    spiOut := (1 <<< 3) ||| (1 <<< 5) }

/-- ATmega2560: banks A .. H; SCK = PB1, MOSI = PB2. -/
def atmega2560 : Platform :=
  { banks := [(0x22, 0x21), (0x25, 0x24), (0x28, 0x27), (0x2B, 0x2A),
              (0x2E, 0x2D), (0x31, 0x30), (0x34, 0x33), (0x102, 0x101)]
    DDRB := 0x24
    spiOut := (1 <<< 1) ||| (1 <<< 2) }

/-! ## Machine state, ghost log, environment -/

/-- One observable step of the driver, recorded in program order. -/
inductive Event where
  /-- Store of a byte to the GPIO register at an address. -/
  | io (addr val : Nat)
  /-- Store to the SPI control register. -/
  | spcr (val : Nat)
  /-- Store to the SPI status register. -/
  | spsr (val : Nat)
  /-- Store to the SPI data register: one byte put on the bus. -/
  | spdr (val : Nat)
  /-- One read of the status register inside the wait loop. -/
  | poll (val : Nat)
  /-- A call of delayMicroseconds. -/
  | delay (us : Nat)
  /-- A diagnostic handed to ERROR_PRINT. -/
  | diag (msg : String)
  deriving DecidableEq, Repr

/-- The state of the microcontroller as the driver sees it. -/
structure Hw where
  /-- GPIO register file, by data-space address. -/
  io : Nat → Nat
  /-- SPI control register. -/
  SPCR : Nat
  /-- SPI status register (its writable content). -/
  SPSR : Nat
  /-- SPI data register. -/
  SPDR : Nat
  /-- The static flag of `SpiBus::init`. -/
  isInit : Bool
  /-- Number of byte exchanges made so far: the index of the next one. -/
  xfers : Nat
  /-- Ghost log, oldest event first. -/
  log : List Event

/-- What the peripheral and the timer answer.  The answers are indexed by the
number of the byte exchange and, inside it, by the number of the read. -/
structure Device where
  /-- Content of SPSR seen by poll `i` of exchange `k`. -/
  status : Nat → Nat → Nat
  /-- Value returned by the `i`-th call of micros() inside exchange `k`
  (call 0 is the one that sets startTime). -/
  clock : Nat → Nat → Nat
  /-- Content of SPDR when it is read back at the end of exchange `k`. -/
  rx : Nat → Nat

/-- A chip-select handle: the data members of class SpiBus. -/
structure Handle where
  /-- Address of the output register of the chip-select pin. -/
  csPort : Nat
  /-- Address of the direction register of the chip-select pin. -/
  csDdr : Nat
  /-- Bit index of the chip-select pin. -/
  csPin : Nat
  /-- Result of the construction-time validation. -/
  csValide : Bool
  /-- Flips the read/write bit convention. -/
  invertRW : Bool
  deriving DecidableEq, Repr

/-- Appends one event to the ghost log. -/
def Hw.emit (hw : Hw) (e : Event) : Hw :=
  { hw with log := hw.log ++ [e] }

/-- Load of a `uint8_t` GPIO register. -/
def Hw.load (hw : Hw) (addr : Nat) : Nat :=
  hw.io addr % 256

/-- Store of a `uint8_t` GPIO register (the value is an `int` expression,
truncated to 8 bits by the assignment). -/
def Hw.store (hw : Hw) (addr val : Nat) : Hw :=
  { hw with
    io := fun a => if a = addr then val % 256 else hw.io a
    log := hw.log ++ [Event.io addr (val % 256)] }

/-- Bitwise complement of a 16-bit `int`, as its two's complement bits. -/
def not16 (x : Nat) : Nat :=
  0xFFFF ^^^ x

/-! ## The driver -/

/-- Source function `SpiBus::printError`: hands "spi:err:" ++ tag to the sink when the sink
is configured, and does nothing otherwise. -/
def printError (cfg : Config) (errorStr : String) (hw : Hw) : Hw :=
  if cfg.errorPrint then hw.emit (Event.diag ("spi:err:" ++ errorStr)) else hw

/-- Source function `SpiBus::select`: `if(csValide) *csPort &= ~(1<<csPin);`. -/
def select (s : Handle) (hw : Hw) : Hw :=
  if s.csValide then hw.store s.csPort (hw.load s.csPort &&& not16 (1 <<< s.csPin)) else hw

/-- Source function `SpiBus::unselect`: `if(csValide) *csPort |= (1<<csPin);`. -/
def unselect (s : Handle) (hw : Hw) : Hw :=
  if s.csValide then hw.store s.csPort (hw.load s.csPort ||| (1 <<< s.csPin)) else hw

/-- Source function `SpiBus::csConfigure`. -/
def csConfigure (s : Handle) (hw : Hw) : Bool × Hw :=
  if s.csValide then
    let hw1 := hw.store s.csDdr (hw.load s.csDdr ||| (1 <<< s.csPin))
    (true, unselect s hw1)
  else (false, hw)

/-- Source function `SpiBus::checkCs`: the pointer pair is one of the banks that the headers
define, and the bit index is below 8. -/
def checkCs (p : Platform) (s : Handle) : Bool :=
  let portOk := p.banks.any (fun b => s.csPort == b.1 && s.csDdr == b.2)
  portOk && decide (s.csPin < 8)

/-- The pointer `ptr - 1` on a `uint8_t*`: pointers of the AVR data space are
16 bits wide, so the address below address 0 is 0xFFFF. -/
def ptrPred (ptr : Nat) : Nat :=
  (ptr + 0xFFFF) % 0x10000

/-- Source function `SpiBus::SpiBus(volatile uint8_t*, uint8_t, bool)`; the
initializer `csDdr(newCsPort-1)` is pointer arithmetic. -/
def mkHandle (p : Platform) (newCsPort newCsPin : Nat) (newInvertRW : Bool) : Handle :=
  let s : Handle :=
    { csPort := newCsPort, csDdr := ptrPred newCsPort, csPin := newCsPin % 256,
      csValide := false, invertRW := newInvertRW }
  { s with csValide := checkCs p s }

/-- Source function `SpiBus::isConnected`. -/
def isConnected (s : Handle) : Bool :=
  s.csValide

/-- Subtraction of `unsigned long` values, modulo 2^32. -/
def sub32 (a b : Nat) : Nat :=
  (a % 2 ^ 32 + 2 ^ 32 - b % 2 ^ 32) % 2 ^ 32

/-- The do-while loop of `SpiBus::waitTimeout`, from poll `i` on, for the
exchange numbered `hw.xfers`.  `none` means that the fuel ran out before the
loop left. -/
def waitLoop (cfg : Config) (dev : Device) (startTime : Nat) : Nat → Nat → Hw → Option (Bool × Hw)
  | 0, _, _ => none
  | fuel + 1, i, hw =>
    let spsr := dev.status hw.xfers i % 256
    let hw1 := hw.emit (Event.poll spsr)
    let spsrTemp := spsr &&& 0xC0
    if spsrTemp &&& (1 <<< WCOL) ≠ 0 then some (false, hw1)
    else if spsrTemp &&& (1 <<< SPIF) ≠ 0 then some (true, hw1)
    else if sub32 (dev.clock hw.xfers (i + 1)) startTime < cfg.SPI_TIMEOUT_US then
      waitLoop cfg dev startTime fuel (i + 1) hw1
    else some (false, printError cfg "timeout" hw1)

/-- Source function `SpiBus::waitTimeout`. -/
def waitTimeout (cfg : Config) (dev : Device) (fuel : Nat) (hw : Hw) : Option (Bool × Hw) :=
  let startTime := dev.clock hw.xfers 0 % 2 ^ 32
  waitLoop cfg dev startTime fuel 0 hw

/-- Source function `SpiBus::exchangeByte`: returns the success flag and the new `*val`. -/
def exchangeByte (cfg : Config) (dev : Device) (fuel : Nat) (val : Nat) (hw : Hw) :
    Option (Bool × Nat × Hw) :=
  let hw1 : Hw := { hw with SPDR := val % 256, log := hw.log ++ [Event.spdr (val % 256)] }
  match waitTimeout cfg dev fuel hw1 with
  | none => none
  | some (success, hw2) =>
    let received := dev.rx hw2.xfers % 256
    some (success, received, { hw2 with SPDR := received, xfers := hw2.xfers + 1 })

/-- Call of `delayMicroseconds`: only recorded. -/
def delayMicroseconds (us : Nat) (hw : Hw) : Hw :=
  hw.emit (Event.delay us)

/-- Source function `SpiBus::cmd`. -/
def cmd (cfg : Config) (dev : Device) (fuel : Nat) (s : Handle) (c : Nat) (hw : Hw) :
    Option (Bool × Hw) :=
  let hw1 := select s hw
  match exchangeByte cfg dev fuel c hw1 with
  | none => none
  | some (false, _, hw2) => some (false, unselect s hw2)
  | some (true, _, hw2) => some (true, unselect s hw2)

/-- The command byte of a register write:
`(1<<7)|reg` when invertRW, `(~(1<<7))&reg` otherwise, stored in a `uint8_t`. -/
def writeCommand (invertRW : Bool) (reg : Nat) : Nat :=
  if invertRW then ((1 <<< 7) ||| reg) % 256 else (not16 (1 <<< 7) &&& reg) % 256

/-- The command byte of a register read:
`(~(1<<7))&reg` when invertRW, `(1<<7)|reg` otherwise, passed as a `uint8_t`. -/
def readCommand (invertRW : Bool) (reg : Nat) : Nat :=
  if invertRW then (not16 (1 <<< 7) &&& reg) % 256 else ((1 <<< 7) ||| reg) % 256

/-- The payload loop of `SpiBus::write(uint8_t, uint8_t*, size_t)`, over the
bytes `buffer[i], buffer[i+1], ...` still to send. -/
def writeLoop (cfg : Config) (dev : Device) (fuel : Nat) (s : Handle) :
    List Nat → Hw → Option (Bool × Hw)
  | [], hw => some (true, unselect s hw)
  | b :: rest, hw =>
    match exchangeByte cfg dev fuel b hw with
    | none => none
    | some (false, _, hw1) => some (false, unselect s hw1)
    | some (true, _, hw1) => writeLoop cfg dev fuel s rest hw1

/-- Source function `SpiBus::write(uint8_t reg, uint8_t *buffer, size_t len)`; the buffer is
the list of its `len` bytes. -/
def write (cfg : Config) (dev : Device) (fuel : Nat) (s : Handle) (reg : Nat)
    (buffer : List Nat) (hw : Hw) : Option (Bool × Hw) :=
  let hw1 := select s hw
  match exchangeByte cfg dev fuel (writeCommand s.invertRW reg) hw1 with
  | none => none
  | some (false, _, hw2) => some (false, unselect s hw2)
  | some (true, _, hw2) => writeLoop cfg dev fuel s buffer hw2

/-- Source function `SpiBus::write(uint8_t reg, uint8_t val)`. -/
def writeByte (cfg : Config) (dev : Device) (fuel : Nat) (s : Handle) (reg val : Nat)
    (hw : Hw) : Option (Bool × Hw) :=
  write cfg dev fuel s reg [val] hw

/-- The loop of `SpiBus::cmdRead`: `n` iterations left, the next one stores
into `buffer[i]`.  Returns the success flag, the buffer and the state; the
unselect of the failure path is done here, the one after the loop in
`cmdRead`. -/
def cmdReadLoop (cfg : Config) (dev : Device) (fuel : Nat) (s : Handle) :
    Nat → Nat → List Nat → Hw → Option (Bool × List Nat × Hw)
  | 0, _, buffer, hw => some (true, buffer, hw)
  | n + 1, i, buffer, hw =>
    let hw1 := delayMicroseconds 100 hw
    match exchangeByte cfg dev fuel 0 hw1 with
    | none => none
    | some (false, _, hw2) => some (false, buffer, unselect s hw2)
    | some (true, data, hw2) => cmdReadLoop cfg dev fuel s n (i + 1) (buffer.set i data) hw2

/-- Source function `SpiBus::cmdRead(uint8_t cmd, uint8_t *buffer, size_t len)`. -/
def cmdRead (cfg : Config) (dev : Device) (fuel : Nat) (s : Handle) (c : Nat)
    (buffer : List Nat) (len : Nat) (hw : Hw) : Option (Bool × List Nat × Hw) :=
  let hw1 := select s hw
  match exchangeByte cfg dev fuel c hw1 with
  | none => none
  | some (false, _, hw2) => some (false, buffer, unselect s hw2)
  | some (true, _, hw2) =>
    match cmdReadLoop cfg dev fuel s len 0 buffer hw2 with
    | none => none
    | some (false, buffer1, hw3) => some (false, buffer1, hw3)
    | some (true, buffer1, hw3) => some (true, buffer1, unselect s (delayMicroseconds 1 hw3))

/-- Source function `SpiBus::read(uint8_t reg, uint8_t *buffer, size_t len)`. -/
def read (cfg : Config) (dev : Device) (fuel : Nat) (s : Handle) (reg : Nat)
    (buffer : List Nat) (len : Nat) (hw : Hw) : Option (Bool × List Nat × Hw) :=
  cmdRead cfg dev fuel s (readCommand s.invertRW reg) buffer len hw

/-- Source function `SpiBus::read(uint8_t reg)`: the byte read, or `(uint8_t)-1`. -/
def readByte (cfg : Config) (dev : Device) (fuel : Nat) (s : Handle) (reg : Nat)
    (readValue : Nat) (hw : Hw) : Option (Nat × Hw) :=
  match read cfg dev fuel s reg [readValue] 1 hw with
  | none => none
  | some (true, buffer, hw1) => some (buffer.headD 0, hw1)
  | some (false, _, hw1) => some (255, hw1)

/-- The two's complement bits of a 16-bit `int`. -/
def bits16 (x : Int) : Nat :=
  (x % 65536).toNat

/-- Conversion of an `int` value to `uint8_t`. -/
def toU8 (x : Int) : Nat :=
  (x % 256).toNat

/-- The scan `for (int i = 7; i >= 0; i--)` of `SpiBus::init` over the bits
of `divider`; the first argument is `i + 1`, the second the running value of
`dividerPower`.  Only bits 7 .. 0 of `divider` are read, and these do not
depend on the width of `int`. -/
def scanDivider (divider : Nat) : Nat → Int → Int
  | 0, dividerPower => dividerPower
  | i + 1, dividerPower =>
    if dividerPower = -1 ∧ divider &&& (1 <<< i) ≠ 0 then scanDivider divider i (i : Int)
    else if divider &&& (1 <<< i) ≠ 0 then dividerPower + 1
    else scanDivider divider i dividerPower

/-- Source line `int divider = F_CPU/SPI_SPEED/2;`. -/
def divider (cfg : Config) : Nat :=
  cfg.F_CPU / cfg.SPI_SPEED / 2

/-- The value of `dividerPower` after the scan, as a function of the divider. -/
def powerOf (d : Nat) : Int :=
  scanDivider d 8 (-1)

/-- The value of `dividerPower` after the scan. -/
def dividerPower (cfg : Config) : Int :=
  powerOf (divider cfg)

/-- The local `spi2x` of `SpiBus::init`, as a function of `dividerPower`. -/
def spi2xOf (dividerPower : Int) : Bool :=
  if dividerPower ≥ 7 then false else decide (bits16 dividerPower &&& 0x01 = 0x01)

/-- The local `uint8_t spi_spr` of `SpiBus::init`, as a function of
`dividerPower`; C division truncates toward zero. -/
def spiSprOf (dividerPower : Int) : Nat :=
  if dividerPower ≥ 7 then 0b11
  else if spi2xOf dividerPower then toU8 (Int.tdiv (dividerPower - 1) 2)
  else toU8 (Int.tdiv dividerPower 2 - 1)

/-- The local `spi2x` of `SpiBus::init`. -/
def spi2x (cfg : Config) : Bool :=
  spi2xOf (dividerPower cfg)

/-- The local `spi_spr` of `SpiBus::init`. -/
def spi_spr (cfg : Config) : Nat :=
  spiSprOf (dividerPower cfg)

/-- The value assigned to SPCR by `SpiBus::init`. -/
def spcrValue (cfg : Config) : Nat :=
  ((1 <<< SPE)
    ||| ((cfg.SPI_LSB_FIRST &&& 0x01) <<< DORD)
    ||| (1 <<< MSTR)
    ||| ((cfg.SPI_LEADING_FALLING &&& 0x01) <<< CPOL)
    ||| ((cfg.SPI_LEADING_SETUP &&& 0x01) <<< CPHA)
    ||| (spi_spr cfg &&& 0b11)) % 256

/-- Source function `SpiBus::init`. -/
def init (cfg : Config) (p : Platform) (hw : Hw) : Hw :=
  if hw.isInit then hw
  else
    let hw1 := hw.store p.DDRB (hw.load p.DDRB ||| p.spiOut)
    let hw2 : Hw := { hw1 with SPCR := spcrValue cfg, log := hw1.log ++ [Event.spcr (spcrValue cfg)] }
    let status :=
      if spi2x cfg then (hw2.SPSR % 256 ||| (1 <<< SPI2X)) % 256
      else (hw2.SPSR % 256 &&& not16 (1 <<< SPI2X)) % 256
    let hw3 : Hw := { hw2 with SPSR := status, log := hw2.log ++ [Event.spsr status] }
    { hw3 with isInit := true }

/-- Source function `SpiBus::begin`. -/
def begin (cfg : Config) (p : Platform) (s : Handle) (hw : Hw) : Hw :=
  if !s.csValide then printError cfg "badCs" hw
  else init cfg p (csConfigure s hw).2

/-! ## Observations on the ghost log and on the environment -/

/-- The bytes stored to the SPI data register, in order. -/
def spdrWrites : List Event → List Nat
  | [] => []
  | Event.spdr v :: es => v :: spdrWrites es
  | _ :: es => spdrWrites es

/-- Whether an event is a store to a hardware register. -/
def Event.isStore : Event → Bool
  | Event.io _ _ => true
  | Event.spcr _ => true
  | Event.spsr _ => true
  | Event.spdr _ => true
  | _ => false

/-- Whether an event is a store to a GPIO register. -/
def Event.isGpio : Event → Bool
  | Event.io _ _ => true
  | _ => false

/-- How one byte exchange ends. -/
inductive Outcome where
  /-- The completion flag was seen first. -/
  | complete
  /-- The collision flag was seen. -/
  | collision
  /-- The timeout bound was reached with neither flag seen. -/
  | expired
  deriving DecidableEq, Repr

/-- What poll `i` of exchange `k` makes the wait loop do: leave with an
outcome, or go round again (`none`). -/
def pollStep (cfg : Config) (dev : Device) (k i : Nat) : Option Outcome :=
  let spsrTemp := dev.status k i % 256 &&& 0xC0
  if spsrTemp &&& (1 <<< WCOL) ≠ 0 then some Outcome.collision
  else if spsrTemp &&& (1 <<< SPIF) ≠ 0 then some Outcome.complete
  else if sub32 (dev.clock k (i + 1)) (dev.clock k 0 % 2 ^ 32) < cfg.SPI_TIMEOUT_US then none
  else some Outcome.expired

/-- Exchange `k` ends with outcome `o` at poll `i`, after `i` polls that all
went round again. -/
def EndsAt (cfg : Config) (dev : Device) (k i : Nat) (o : Outcome) : Prop :=
  pollStep cfg dev k i = some o ∧ ∀ j, j < i → pollStep cfg dev k j = none

/-- Exchange `k` ends with outcome `o` within `fuel` polls. -/
def Ends (cfg : Config) (dev : Device) (fuel k : Nat) (o : Outcome) : Prop :=
  ∃ i, i < fuel ∧ EndsAt cfg dev k i o

/-- Every exchange leaves its wait loop within `fuel` polls; how (completion,
collision, timeout) is left open. -/
def Responsive (cfg : Config) (dev : Device) (fuel : Nat) : Prop :=
  ∀ k, ∃ o, Ends cfg dev fuel k o

/-- A handle that passed validation: the flag is set and the bit index
addresses one of the eight bits of the register. -/
def Handle.Valid (s : Handle) : Prop :=
  s.csValide = true ∧ s.csPin < 8

/-! ## Predicates used by the statements -/

/-- The events store to no register except the SPI data register. -/
def OnlyData (evs : List Event) : Prop :=
  ∀ e ∈ evs, e.isStore = true → ∃ v, e = Event.spdr v

/-- From `hw` to `hw'` the driver has put the bytes `vals` on the bus, in
order, and has stored to no other register: the GPIO file, SPCR, SPSR and the
init flag are as before, `vals.length` exchanges have been made. -/
def Transfer (vals : List Nat) (hw hw' : Hw) : Prop :=
  hw'.io = hw.io ∧ hw'.SPCR = hw.SPCR ∧ hw'.SPSR = hw.SPSR ∧ hw'.isInit = hw.isInit ∧
    hw'.xfers = hw.xfers + vals.length ∧
    ∃ evs, hw'.log = hw.log ++ evs ∧ spdrWrites evs = vals ∧ OnlyData evs

/-- The `n` exchanges numbered `k0, k0 + 1, ...` all end with completion. -/
def AllComplete (cfg : Config) (dev : Device) (fuel k0 n : Nat) : Prop :=
  ∀ j, j < n → Ends cfg dev fuel (k0 + j) Outcome.complete

/-- Counting from exchange `k0` as exchange 0, exchange `k` is the first one
that fails: the ones before it complete, and it ends with a collision or with
the timeout. -/
def FirstFailure (cfg : Config) (dev : Device) (fuel k0 k : Nat) : Prop :=
  AllComplete cfg dev fuel k0 k ∧
    ∃ o, o ≠ Outcome.complete ∧ Ends cfg dev fuel (k0 + k) o

/-- The bytes `dev.rx k0, dev.rx (k0 + 1), ...` that the device presents in
`n` successive exchanges. -/
def received (dev : Device) (k0 : Nat) : Nat → List Nat
  | 0 => []
  | n + 1 => dev.rx k0 % 256 :: received dev (k0 + 1) n

/-- The buffer after `buffer[i] = b0; buffer[i+1] = b1; ...`. -/
def storeFrom (buffer : List Nat) (i : Nat) : List Nat → List Nat
  | [] => buffer
  | b :: bs => storeFrom (buffer.set i b) (i + 1) bs

/-- From `hw` to `hw'` exactly the bytes `vals` were stored to the data
register, in order, one per exchange. -/
def Sent (vals : List Nat) (hw hw' : Hw) : Prop :=
  hw'.xfers = hw.xfers + vals.length ∧
    ∃ evs, hw'.log = hw.log ++ evs ∧ spdrWrites evs = vals

/-- The chip-select framing of a transaction from `hw` to `hw'`: its events
are a store to the chip-select register with the pin's bit low, then events
that store to no GPIO register and among which a byte is stored to the data
register, then a store to the chip-select register with the pin's bit high,
which is the content of the register at return. -/
def Framed (s : Handle) (hw hw' : Hw) : Prop :=
  ∃ lo mid hi,
    hw'.log = hw.log ++ Event.io s.csPort lo :: (mid ++ [Event.io s.csPort hi]) ∧
    lo.testBit s.csPin = false ∧
    (∀ e ∈ mid, e.isGpio = false) ∧
    spdrWrites mid ≠ [] ∧
    hi.testBit s.csPin = true ∧
    hw'.io s.csPort = hi

/-- Summary of a transaction from `hw` that selects, exchanges the bytes of
`frame` (command byte first) until one exchange fails, unselects and returns
`r` in state `hw'`: either every exchange completes, `r` is true and the
whole frame went out, or exchange `k` is the first to fail, `r` is false and
the frame went out up to byte `k`. -/
def Ran (cfg : Config) (dev : Device) (fuel : Nat) (s : Handle) (frame : List Nat)
    (hw : Hw) (r : Bool) (hw' : Hw) : Prop :=
  ∃ hw1, hw' = unselect s hw1 ∧
    ((r = true ∧ AllComplete cfg dev fuel hw.xfers frame.length ∧
        Transfer frame (select s hw) hw1) ∨
      (r = false ∧ ∃ k, k < frame.length ∧ FirstFailure cfg dev fuel hw.xfers k ∧
        Transfer (frame.take (k + 1)) (select s hw) hw1))

/-- What a transaction leaves behind when select and unselect do nothing: the
GPIO file, SPCR and SPSR are as before, the only stores go to the data
register, and the first of them is the byte `first`. -/
def Unframed (first : Nat) (hw hw' : Hw) : Prop :=
  hw'.io = hw.io ∧ hw'.SPCR = hw.SPCR ∧ hw'.SPSR = hw.SPSR ∧
    ∃ evs, hw'.log = hw.log ++ evs ∧ OnlyData evs ∧ (spdrWrites evs).head? = some first

/-- Power-on state: every register zero, nothing logged. -/
def hw0 : Hw :=
  { io := fun _ => 0, SPCR := 0, SPSR := 0, SPDR := 0, isInit := false, xfers := 0, log := [] }

/-- A sample build: 16 MHz clock, 4 MHz bus, 1000 microseconds of timeout,
diagnostic sink present. -/
def sampleConfig : Config :=
  { F_CPU := 16000000, SPI_SPEED := 4000000, SPI_LSB_FIRST := 0, SPI_LEADING_FALLING := 0,
    SPI_LEADING_SETUP := 0, SPI_TIMEOUT_US := 1000, errorPrint := true }

/-- A peripheral that completes every exchange at its first poll and shifts
in the byte `0xA0 + k` in exchange `k`. -/
def readyDevice : Device :=
  { status := fun _ _ => 0x80, clock := fun _ i => 4 * i, rx := fun k => 0xA0 + k }

/-- A peripheral that completes exchange 0 and reports a write collision in
every later exchange. -/
def collidingDevice : Device :=
  { status := fun k _ => if k = 0 then 0x80 else 0x40, clock := fun _ i => 4 * i,
    rx := fun _ => 0 }

/-- A peripheral that never raises a flag, with a clock that advances by 400
microseconds from one read to the next. -/
def silentDevice : Device :=
  { status := fun _ _ => 0, clock := fun _ i => 400 * i, rx := fun _ => 0 }

/-- Chip select on PB2 of an ATmega328P, built by the explicit constructor. -/
def pb2 : Handle :=
  mkHandle atmega328p 0x25 2 false

/-- A handle whose register is no GPIO output register: validation fails. -/
def badHandle : Handle :=
  mkHandle atmega328p 0x4E 2 false

/-- A build that asks for the fastest bus: 16 MHz clock, 8 MHz bus, so that
the divider is 1. -/
def fastBus : Config :=
  { sampleConfig with SPI_SPEED := 8000000 }

/-- A build that asks for a slow bus: 16 MHz clock, 31.25 kHz bus, so that
the divider is 256. -/
def slowBus : Config :=
  { sampleConfig with SPI_SPEED := 31250 }

/-- A build that asks for a slightly slower bus still: 16 MHz clock, 31 kHz
bus, so that the divider is 258. -/
def slowerBus : Config :=
  { sampleConfig with SPI_SPEED := 31000 }

/-! ## The logical-pin constructor -/

/-- The pin table of the Arduino core, which `SpiBus::SpiBus(int)` reads
through the macros of the same names: parameters of the embedding. -/
structure PinTable where
  /-- The port number that means "no such pin". -/
  NOT_A_PIN : Nat
  /-- Port number of a logical pin. -/
  digitalPinToPort : Int → Nat
  /-- Address of the output register of a port. -/
  portOutputRegister : Nat → Nat
  /-- Address of the direction register of a port. -/
  portModeRegister : Nat → Nat
  /-- Bit mask of a logical pin inside its port. -/
  digitalPinToBitMask : Int → Nat

/-- The loop `while(!((mask) & 1)) { mask >>= 1; csPin++; }` on the `uint8_t`
variables `mask` and `csPin`; `none` means that the fuel ran out before the
loop left. -/
def maskLoop : Nat → Nat → Nat → Option Nat
  | 0, _, _ => none
  | fuel + 1, mask, csPin =>
    if mask &&& 1 = 0 then maskLoop fuel ((mask >>> 1) % 256) ((csPin + 1) % 256)
    else some csPin

/-- Source function `SpiBus::SpiBus(int arduinoPin)`. -/
def mkHandleOfPin (t : PinTable) (fuel : Nat) (arduinoPin : Int) : Option Handle :=
  let port := t.digitalPinToPort arduinoPin % 256
  if port ≠ t.NOT_A_PIN then
    let mask := t.digitalPinToBitMask arduinoPin % 256
    match maskLoop fuel mask 0 with
    | none => none
    | some csPin =>
      some { csPort := t.portOutputRegister port, csDdr := t.portModeRegister port,
             csPin := csPin, csValide := true, invertRW := false }
  else some { csPort := 0, csDdr := 0, csPin := 0, csValide := false, invertRW := false }

/-- The pin table of the Arduino Uno: pins 0..7 on port D, 8..13 on port B,
14..19 on port C. -/
def unoPins : PinTable :=
  { NOT_A_PIN := 0
    digitalPinToPort := fun pin =>
      if 0 ≤ pin ∧ pin ≤ 7 then 4 else if 8 ≤ pin ∧ pin ≤ 13 then 2
      else if 14 ≤ pin ∧ pin ≤ 19 then 3 else 0
    portOutputRegister := fun port =>
      if port = 2 then 0x25 else if port = 3 then 0x28 else if port = 4 then 0x2B else 0
    portModeRegister := fun port =>
      if port = 2 then 0x24 else if port = 3 then 0x27 else if port = 4 then 0x2A else 0
    digitalPinToBitMask := fun pin =>
      if 0 ≤ pin ∧ pin ≤ 7 then 1 <<< pin.toNat else if 8 ≤ pin ∧ pin ≤ 13 then 1 <<< (pin - 8).toNat
      else if 14 ≤ pin ∧ pin ≤ 19 then 1 <<< (pin - 14).toNat else 0 }

/-! ## Observations for the wait loop, the diagnostics and the clock -/

/-- The messages handed to the diagnostic sink, in order. -/
def diags : List Event → List String
  | [] => []
  | Event.diag msg :: es => msg :: diags es
  | _ :: es => diags es

/-- The log entries of the polls `i, i + 1, ..., i + n - 1` of exchange `k`. -/
def pollLog (dev : Device) (k : Nat) : Nat → Nat → List Event
  | _, 0 => []
  | i, n + 1 => Event.poll (dev.status k i % 256) :: pollLog dev k (i + 1) n

/-- Whether poll `i` of exchange `k` shows the write collision flag. -/
def Device.wcol (dev : Device) (k i : Nat) : Bool :=
  (dev.status k i).testBit WCOL

/-- Whether poll `i` of exchange `k` shows the transfer complete flag. -/
def Device.spif (dev : Device) (k i : Nat) : Bool :=
  (dev.status k i).testBit SPIF

/-- The elapsed time `micros() - startTime` that the wait loop computes after
poll `i` of exchange `k`, in `unsigned long` arithmetic. -/
def Device.elapsed (dev : Device) (k i : Nat) : Nat :=
  sub32 (dev.clock k (i + 1)) (dev.clock k 0 % 2 ^ 32)

/-- What the wait loop logs after its last poll: the timeout message when the
loop left by timeout and the sink is defined, nothing otherwise. -/
def timeoutDiag (cfg : Config) : Outcome → List Event
  | Outcome.expired => if cfg.errorPrint then [Event.diag ("spi:err:" ++ "timeout")] else []
  | _ => []

/-- Modelled from the spec: the clock ratio that the AVR hardware derives from
the double-speed bit and the two-bit select field; select 0, 1, 2, 3 means
ratio 4, 16, 64, 128, halved when double speed is on. -/
def clockRatio (doubleSpeed : Bool) (sel : Nat) : Nat :=
  let base := if sel = 0 then 4 else if sel = 1 then 16 else if sel = 2 then 64 else 128
  if doubleSpeed then base / 2 else base

/-- The clock ratio programmed in a state: the table read at the double-speed
bit of SPSR and the two low bits of SPCR. -/
def Hw.ratio (hw : Hw) : Nat :=
  clockRatio (hw.SPSR.testBit SPI2X) (hw.SPCR &&& 0b11)

/-- From `hw` to `hw'` no bit of a GPIO register has changed, except possibly
bit `pin` of the register at `addr`. -/
def OnlyBit (addr pin : Nat) (hw hw' : Hw) : Prop :=
  ∀ a j, (a ≠ addr ∨ j ≠ pin) → (hw'.load a).testBit j = (hw.load a).testBit j

/-- The sample build without a diagnostic sink. -/
def noSink : Config :=
  { sampleConfig with errorPrint := false }

/-! ## The mock peripheral of the round-trip test -/

/-- Modelled from the spec: the mock peripheral of the write / read round
trip.  It keeps, for each register address, the payload bytes latched by the
last write frame to that address. -/
structure Mock where
  /-- The bytes latched under each register address. -/
  latched : Nat → List Nat

/-- Modelled from the spec: how the mock serves one frame, the bytes the
driver sends between select and unselect, command byte first.  The register
addressed is the low seven bits of the command; a command whose top bit equals
`invertRW` is a write, whose payload the mock latches (it answers zeros); any
other command is a read, answered after the command byte by the latched bytes
in order.  Returns the new state and the byte answered in each exchange. -/
def Mock.serve (m : Mock) (invertRW : Bool) : List Nat → Mock × List Nat
  | [] => (m, [])
  | c :: payload =>
    if c.testBit 7 = invertRW then
      ({ latched := fun a => if a = c &&& 0x7F then payload else m.latched a },
        List.replicate (payload.length + 1) 0)
    else
      (m, 0 :: (List.range payload.length).map (fun i => (m.latched (c &&& 0x7F)).getD i 0))

/-- A mock with nothing latched. -/
def emptyMock : Mock :=
  { latched := fun _ => [] }

/-- The answers of the mock to a sequence of frames, one byte per exchange. -/
def Mock.answers (m : Mock) (invertRW : Bool) : List (List Nat) → List Nat
  | [] => []
  | frame :: frames =>
    (m.serve invertRW frame).2 ++ Mock.answers (m.serve invertRW frame).1 invertRW frames

/-- The device that a mock makes when it is sent the given frames from
exchange 0 on: every exchange completes at its first poll, and the byte
received in exchange `k` is the `k`-th answer of the mock. -/
def mockDevice (m : Mock) (invertRW : Bool) (frames : List (List Nat)) : Device :=
  { status := fun _ _ => 0x80, clock := fun _ i => 4 * i,
    rx := fun k => (m.answers invertRW frames).getD k 0 }

/-- A peripheral that shows no flag in its first two polls and both the
collision and the completion flag from the third poll on. -/
def lateCollisionDevice : Device :=
  { status := fun _ i => if i < 2 then 0 else 0xC0, clock := fun _ i => 4 * i,
    rx := fun _ => 0x5A }

/-! ## Bit lemmas -/

theorem testBit_cleared (x pin : Nat) (h : pin < 8) :
    ((x &&& not16 (1 <<< pin)) % 256).testBit pin = false := by
  have h16 : (0xFFFF : Nat) = 2 ^ 16 - 1 := by norm_num
  have h256 : (256 : Nat) = 2 ^ 8 := by norm_num
  rw [h256, Nat.testBit_mod_two_pow, Nat.testBit_and, not16, Nat.testBit_xor, h16,
    Nat.testBit_two_pow_sub_one, Nat.one_shiftLeft, Nat.testBit_two_pow_self]
  have : pin < 16 := by omega
  simp [this]

theorem testBit_raised (x pin : Nat) (h : pin < 8) :
    ((x ||| (1 <<< pin)) % 256).testBit pin = true := by
  have h256 : (256 : Nat) = 2 ^ 8 := by norm_num
  rw [h256, Nat.testBit_mod_two_pow, Nat.testBit_or, Nat.one_shiftLeft, Nat.testBit_two_pow_self]
  simp [h]

/-! ## The ghost log -/

theorem spdrWrites_append (a b : List Event) :
    spdrWrites (a ++ b) = spdrWrites a ++ spdrWrites b := by
  induction a with
  | nil => rfl
  | cons e es ih => cases e <;> simp [spdrWrites, ih]

theorem OnlyData.nil : OnlyData [] := by
  intro e he
  cases he

theorem OnlyData.append {a b : List Event} (ha : OnlyData a) (hb : OnlyData b) :
    OnlyData (a ++ b) := by
  intro e he
  rcases List.mem_append.mp he with h | h
  · exact ha e h
  · exact hb e h

theorem OnlyData.noGpio {evs : List Event} (h : OnlyData evs) :
    ∀ e ∈ evs, e.isGpio = false := by
  intro e he
  cases e with
  | io a v =>
    obtain ⟨w, hw⟩ := h _ he rfl
    cases hw
  | _ => rfl

theorem Transfer.refl (hw : Hw) : Transfer [] hw hw :=
  ⟨rfl, rfl, rfl, rfl, rfl, [], by simp, rfl, OnlyData.nil⟩

theorem Transfer.trans {a b : List Nat} {hw hw1 hw2 : Hw}
    (h1 : Transfer a hw hw1) (h2 : Transfer b hw1 hw2) : Transfer (a ++ b) hw hw2 := by
  obtain ⟨i1, c1, s1, n1, x1, e1, l1, w1, o1⟩ := h1
  obtain ⟨i2, c2, s2, n2, x2, e2, l2, w2, o2⟩ := h2
  refine ⟨i2.trans i1, c2.trans c1, s2.trans s1, n2.trans n1, ?_, e1 ++ e2, ?_, ?_, o1.append o2⟩
  · rw [x2, x1, List.length_append, Nat.add_assoc]
  · rw [l2, l1, List.append_assoc]
  · rw [spdrWrites_append, w1, w2]

theorem Transfer.of_emit (hw : Hw) (e : Event) (he : e.isStore = false) :
    Transfer [] hw (hw.emit e) := by
  refine ⟨rfl, rfl, rfl, rfl, rfl, [e], rfl, ?_, ?_⟩
  · cases e <;> first | rfl | cases he
  · intro e' he'
    rw [List.mem_singleton] at he'
    subst he'
    intro h
    rw [he] at h
    cases h

theorem Transfer.of_printError (cfg : Config) (msg : String) (hw : Hw) :
    Transfer [] hw (printError cfg msg hw) := by
  unfold SpiBus.printError
  split
  · exact Transfer.of_emit hw _ rfl
  · exact Transfer.refl hw

/-! ## The wait loop and the byte exchange -/

theorem emit_xfers (hw : Hw) (e : Event) : (hw.emit e).xfers = hw.xfers := rfl

theorem emit_SPDR (hw : Hw) (e : Event) : (hw.emit e).SPDR = hw.SPDR := rfl

theorem printError_SPDR (cfg : Config) (msg : String) (hw : Hw) :
    (printError cfg msg hw).SPDR = hw.SPDR := by
  unfold printError
  split <;> rfl

/-- One round of the wait loop, read off the device's answer to the poll. -/
theorem waitLoop_succ (cfg : Config) (dev : Device) (fuel i : Nat) (hw : Hw) :
    waitLoop cfg dev (dev.clock hw.xfers 0 % 2 ^ 32) (fuel + 1) i hw =
      match pollStep cfg dev hw.xfers i with
      | some Outcome.collision =>
        some (false, hw.emit (Event.poll (dev.status hw.xfers i % 256)))
      | some Outcome.complete =>
        some (true, hw.emit (Event.poll (dev.status hw.xfers i % 256)))
      | some Outcome.expired =>
        some (false, printError cfg "timeout" (hw.emit (Event.poll (dev.status hw.xfers i % 256))))
      | none =>
        waitLoop cfg dev (dev.clock hw.xfers 0 % 2 ^ 32) fuel (i + 1)
          (hw.emit (Event.poll (dev.status hw.xfers i % 256))) := by
  simp only [waitLoop, pollStep]
  split_ifs <;> rfl

/-- If the device ends the exchange with outcome `o` at poll `j`, the wait
loop started at poll `i ≤ j` with enough fuel returns, with `true` exactly for
completion. -/
theorem waitLoop_run (cfg : Config) (dev : Device) (o : Outcome) (j : Nat) :
    ∀ (fuel i : Nat) (hw : Hw), i ≤ j → j < i + fuel →
      pollStep cfg dev hw.xfers j = some o →
      (∀ j', i ≤ j' → j' < j → pollStep cfg dev hw.xfers j' = none) →
      ∃ hw', waitLoop cfg dev (dev.clock hw.xfers 0 % 2 ^ 32) fuel i hw
            = some (decide (o = Outcome.complete), hw')
          ∧ Transfer [] hw hw' ∧ hw'.SPDR = hw.SPDR := by
  intro fuel
  induction fuel with
  | zero =>
    intro i hw hij hj _ _
    omega
  | succ fuel ih =>
    intro i hw hij hj hend hbefore
    rw [waitLoop_succ]
    rcases Nat.eq_or_lt_of_le hij with heq | hlt
    · subst heq
      rw [hend]
      cases o
      · exact ⟨_, rfl, Transfer.of_emit hw _ rfl, rfl⟩
      · exact ⟨_, rfl, Transfer.of_emit hw _ rfl, rfl⟩
      · refine ⟨_, rfl, ?_, ?_⟩
        · exact (Transfer.of_emit hw (Event.poll _) rfl).trans (Transfer.of_printError cfg _ _)
        · rw [printError_SPDR, emit_SPDR]
    · rw [hbefore i (Nat.le_refl i) hlt]
      obtain ⟨hw', hrun, htr, hd⟩ :=
        ih (i + 1) (hw.emit (Event.poll (dev.status hw.xfers i % 256))) hlt (by omega)
          hend (fun j' h1 h2 => hbefore j' (by omega) h2)
      exact ⟨hw', hrun, (Transfer.of_emit hw (Event.poll _) rfl).trans htr,
        hd.trans (emit_SPDR hw _)⟩

/-- A byte exchange that the device ends within the fuel returns: the flag
is `true` exactly for completion, the byte is the one the device presents, and
the only register stored to is the data register, with the byte to send. -/
theorem exchangeByte_run (cfg : Config) (dev : Device) (fuel val : Nat) (hw : Hw)
    (o : Outcome) (h : Ends cfg dev fuel hw.xfers o) :
    ∃ hw', exchangeByte cfg dev fuel val hw
          = some (decide (o = Outcome.complete), dev.rx hw.xfers % 256, hw')
        ∧ Transfer [val % 256] hw hw' := by
  obtain ⟨j, hj, hend, hbefore⟩ := h
  obtain ⟨hw2, hrun, htr, _⟩ :=
    waitLoop_run cfg dev o j fuel 0
      { hw with SPDR := val % 256, log := hw.log ++ [Event.spdr (val % 256)] }
      (Nat.zero_le j) (by omega) hend (fun j' _ h2 => hbefore j' h2)
  obtain ⟨i2, c2, s2, n2, x2, evs, l2, w2, o2⟩ := htr
  simp only [List.length_nil, Nat.add_zero] at x2
  refine ⟨{ hw2 with SPDR := dev.rx hw2.xfers % 256, xfers := hw2.xfers + 1 }, ?_, ?_⟩
  · simp only [exchangeByte, waitTimeout]
    rw [hrun]
    simp only [x2]
  · refine ⟨i2, c2, s2, n2, ?_, Event.spdr (val % 256) :: evs, ?_, ?_, ?_⟩
    · simp only [x2, List.length_singleton]
    · simp only [l2, List.append_assoc, List.singleton_append]
    · simp only [spdrWrites, w2]
    · intro e he hs
      rcases List.mem_cons.mp he with h1 | h1
      · exact ⟨_, h1⟩
      · exact o2 e h1 hs

/-! ## Outcomes are determined by the device -/

theorem endsAt_unique {cfg : Config} {dev : Device} {k i i' : Nat} {o o' : Outcome}
    (h : EndsAt cfg dev k i o) (h' : EndsAt cfg dev k i' o') : o = o' := by
  rcases Nat.lt_trichotomy i i' with hlt | heq | hgt
  · have := h'.2 i hlt
    rw [h.1] at this
    cases this
  · subst heq
    have := h.1.symm.trans h'.1
    exact Option.some.inj this
  · have := h.2 i' hgt
    rw [h'.1] at this
    cases this

theorem ends_unique {cfg : Config} {dev : Device} {fuel k : Nat} {o o' : Outcome}
    (h : Ends cfg dev fuel k o) (h' : Ends cfg dev fuel k o') : o = o' := by
  obtain ⟨i, _, hi⟩ := h
  obtain ⟨i', _, hi'⟩ := h'
  exact endsAt_unique hi hi'

theorem AllComplete.after_first {cfg : Config} {dev : Device} {fuel k0 n : Nat}
    (h : AllComplete cfg dev fuel k0 (n + 1)) : AllComplete cfg dev fuel (k0 + 1) n := by
  intro j hj
  have := h (j + 1) (by omega)
  rwa [show k0 + (j + 1) = k0 + 1 + j by omega] at this

theorem AllComplete.with_first {cfg : Config} {dev : Device} {fuel k0 n : Nat}
    (h0 : Ends cfg dev fuel k0 Outcome.complete)
    (h : AllComplete cfg dev fuel (k0 + 1) n) : AllComplete cfg dev fuel k0 (n + 1) := by
  intro j hj
  cases j with
  | zero => exact h0
  | succ j =>
    have := h j (by omega)
    rwa [show k0 + 1 + j = k0 + (j + 1) by omega] at this

theorem FirstFailure.shift_up {cfg : Config} {dev : Device} {fuel k0 k : Nat}
    (h0 : Ends cfg dev fuel k0 Outcome.complete)
    (h : FirstFailure cfg dev fuel (k0 + 1) k) : FirstFailure cfg dev fuel k0 (k + 1) := by
  obtain ⟨hall, o, ho, hends⟩ := h
  refine ⟨AllComplete.with_first h0 hall, o, ho, ?_⟩
  rwa [show k0 + (k + 1) = k0 + 1 + k by omega]

theorem FirstFailure.zero {cfg : Config} {dev : Device} {fuel k0 : Nat} {o : Outcome}
    (ho : o ≠ Outcome.complete) (h : Ends cfg dev fuel k0 o) :
    FirstFailure cfg dev fuel k0 0 :=
  ⟨fun _ hj => absurd hj (Nat.not_lt_zero _), o, ho, h⟩

/-- The first failing exchange excludes that the exchanges up to it all
complete. -/
theorem FirstFailure.not_allComplete {cfg : Config} {dev : Device} {fuel k0 k n : Nat}
    (h : FirstFailure cfg dev fuel k0 k) (hk : k < n) : ¬ AllComplete cfg dev fuel k0 n := by
  intro hall
  obtain ⟨_, o, ho, hends⟩ := h
  exact ho (ends_unique hends (hall k hk))

theorem FirstFailure.unique {cfg : Config} {dev : Device} {fuel k0 k k' : Nat}
    (h : FirstFailure cfg dev fuel k0 k) (h' : FirstFailure cfg dev fuel k0 k') : k = k' := by
  rcases Nat.lt_trichotomy k k' with hlt | heq | hgt
  · exact absurd h'.1 (h.not_allComplete hlt)
  · exact heq
  · exact absurd h.1 (h'.not_allComplete hgt)

theorem FirstFailure.head {cfg : Config} {dev : Device} {fuel k0 k : Nat}
    (h : FirstFailure cfg dev fuel k0 (k + 1)) : Ends cfg dev fuel k0 Outcome.complete := by
  have := h.1 0 (by omega)
  rwa [Nat.add_zero] at this

theorem FirstFailure.shift_down {cfg : Config} {dev : Device} {fuel k0 k : Nat}
    (h : FirstFailure cfg dev fuel k0 (k + 1)) : FirstFailure cfg dev fuel (k0 + 1) k := by
  obtain ⟨hall, o, ho, hends⟩ := h
  refine ⟨hall.after_first, o, ho, ?_⟩
  rwa [show k0 + 1 + k = k0 + (k + 1) by omega]

/-- When the device ends each of `n` successive exchanges, either all of them
complete or one of them is the first to fail. -/
theorem complete_or_firstFailure (cfg : Config) (dev : Device) (fuel k0 : Nat) :
    ∀ n, (∀ j, j < n → ∃ o, Ends cfg dev fuel (k0 + j) o) →
      AllComplete cfg dev fuel k0 n ∨ ∃ k, k < n ∧ FirstFailure cfg dev fuel k0 k := by
  intro n
  induction n with
  | zero =>
    intro _
    exact Or.inl (fun _ hj => absurd hj (Nat.not_lt_zero _))
  | succ n ih =>
    intro hdev
    rcases ih (fun j hj => hdev j (by omega)) with hall | ⟨k, hk, hff⟩
    · obtain ⟨o, ho⟩ := hdev n (by omega)
      by_cases hc : o = Outcome.complete
      · subst hc
        left
        intro j hj
        rcases Nat.eq_or_lt_of_le (Nat.le_of_lt_succ hj) with heq | hlt
        · rw [heq]
          exact ho
        · exact hall j hlt
      · exact Or.inr ⟨n, by omega, hall, o, hc, ho⟩
    · exact Or.inr ⟨k, by omega, hff⟩

/-! ## The payload loops -/

theorem transfer_xfers {vals : List Nat} {hw hw' : Hw} (h : Transfer vals hw hw') :
    hw'.xfers = hw.xfers + vals.length :=
  h.2.2.2.2.1

/-- One round of the payload loop of the buffer write whose exchange
completes. -/
theorem writeLoop_step (cfg : Config) (dev : Device) (fuel : Nat) (s : Handle) (b : Nat)
    (rest : List Nat) (hw : Hw) (h : Ends cfg dev fuel hw.xfers Outcome.complete) :
    ∃ hw1, writeLoop cfg dev fuel s (b :: rest) hw = writeLoop cfg dev fuel s rest hw1 ∧
      Transfer [b % 256] hw hw1 := by
  obtain ⟨hw1, hex, htr⟩ := exchangeByte_run cfg dev fuel b hw _ h
  refine ⟨hw1, ?_, htr⟩
  simp only [writeLoop, hex]
  rfl

/-- One round of the payload loop of the buffer write whose exchange fails. -/
theorem writeLoop_stop (cfg : Config) (dev : Device) (fuel : Nat) (s : Handle) (b : Nat)
    (rest : List Nat) (hw : Hw) (o : Outcome) (ho : o ≠ Outcome.complete)
    (h : Ends cfg dev fuel hw.xfers o) :
    ∃ hw1, writeLoop cfg dev fuel s (b :: rest) hw = some (false, unselect s hw1) ∧
      Transfer [b % 256] hw hw1 := by
  obtain ⟨hw1, hex, htr⟩ := exchangeByte_run cfg dev fuel b hw o h
  have hd : decide (o = Outcome.complete) = false := decide_eq_false ho
  refine ⟨hw1, ?_, htr⟩
  simp only [writeLoop, hex, hd]

/-- The payload loop of the buffer write when every exchange completes: every
byte is sent, the handle is unselected, the result is true. -/
theorem writeLoop_complete (cfg : Config) (dev : Device) (fuel : Nat) (s : Handle) :
    ∀ (buffer : List Nat) (hw : Hw), AllComplete cfg dev fuel hw.xfers buffer.length →
      ∃ hw1, writeLoop cfg dev fuel s buffer hw = some (true, unselect s hw1) ∧
        Transfer (buffer.map (· % 256)) hw hw1 := by
  intro buffer
  induction buffer with
  | nil =>
    intro hw _
    exact ⟨hw, rfl, Transfer.refl hw⟩
  | cons b rest ih =>
    intro hw hall
    have h0 : Ends cfg dev fuel hw.xfers Outcome.complete := by
      have := hall 0 (by simp)
      rwa [Nat.add_zero] at this
    obtain ⟨hw1, hstep, htr⟩ := writeLoop_step cfg dev fuel s b rest hw h0
    have hx : hw1.xfers = hw.xfers + 1 := transfer_xfers htr
    obtain ⟨hw2, hrun, htr2⟩ := ih hw1 (by rw [hx]; exact AllComplete.after_first hall)
    exact ⟨hw2, hstep.trans hrun, htr.trans htr2⟩

/-- The payload loop of the buffer write when exchange `k` is the first to
fail: the bytes up to byte `k` are sent, the handle is unselected, the result
is false. -/
theorem writeLoop_fails (cfg : Config) (dev : Device) (fuel : Nat) (s : Handle) :
    ∀ (buffer : List Nat) (k : Nat) (hw : Hw), k < buffer.length →
      FirstFailure cfg dev fuel hw.xfers k →
      ∃ hw1, writeLoop cfg dev fuel s buffer hw = some (false, unselect s hw1) ∧
        Transfer ((buffer.take (k + 1)).map (· % 256)) hw hw1 := by
  intro buffer
  induction buffer with
  | nil =>
    intro k hw hk _
    exact absurd hk (Nat.not_lt_zero _)
  | cons b rest ih =>
    intro k hw hk hff
    cases k with
    | zero =>
      obtain ⟨_, o, ho, hends⟩ := hff
      rw [Nat.add_zero] at hends
      obtain ⟨hw1, hrun, htr⟩ := writeLoop_stop cfg dev fuel s b rest hw o ho hends
      exact ⟨hw1, hrun, by simpa using htr⟩
    | succ k =>
      obtain ⟨hw1, hstep, htr⟩ := writeLoop_step cfg dev fuel s b rest hw hff.head
      have hx : hw1.xfers = hw.xfers + 1 := transfer_xfers htr
      obtain ⟨hw2, hrun, htr2⟩ :=
        ih k hw1 (by simpa using hk) (by rw [hx]; exact hff.shift_down)
      exact ⟨hw2, hstep.trans hrun, htr.trans htr2⟩

/-- One round of the loop of the command read whose exchange completes. -/
theorem cmdReadLoop_step (cfg : Config) (dev : Device) (fuel : Nat) (s : Handle) (n i : Nat)
    (buffer : List Nat) (hw : Hw) (h : Ends cfg dev fuel hw.xfers Outcome.complete) :
    ∃ hw1, cmdReadLoop cfg dev fuel s (n + 1) i buffer hw
        = cmdReadLoop cfg dev fuel s n (i + 1) (buffer.set i (dev.rx hw.xfers % 256)) hw1 ∧
      Transfer [0] hw hw1 := by
  obtain ⟨hw1, hex, htr⟩ := exchangeByte_run cfg dev fuel 0 (delayMicroseconds 100 hw) _ h
  refine ⟨hw1, ?_, (Transfer.of_emit hw (Event.delay 100) rfl).trans htr⟩
  simp only [cmdReadLoop, hex]
  rfl

/-- One round of the loop of the command read whose exchange fails. -/
theorem cmdReadLoop_stop (cfg : Config) (dev : Device) (fuel : Nat) (s : Handle) (n i : Nat)
    (buffer : List Nat) (hw : Hw) (o : Outcome) (ho : o ≠ Outcome.complete)
    (h : Ends cfg dev fuel hw.xfers o) :
    ∃ hw1, cmdReadLoop cfg dev fuel s (n + 1) i buffer hw
        = some (false, buffer, unselect s hw1) ∧
      Transfer [0] hw hw1 := by
  obtain ⟨hw1, hex, htr⟩ := exchangeByte_run cfg dev fuel 0 (delayMicroseconds 100 hw) o h
  have hd : decide (o = Outcome.complete) = false := decide_eq_false ho
  refine ⟨hw1, ?_, (Transfer.of_emit hw (Event.delay 100) rfl).trans htr⟩
  simp only [cmdReadLoop, hex, hd]

/-- The loop of the command read when every exchange completes: `n` zero
bytes are sent and the `n` bytes received are stored from `buffer[i]` on. -/
theorem cmdReadLoop_complete (cfg : Config) (dev : Device) (fuel : Nat) (s : Handle) :
    ∀ (n i : Nat) (buffer : List Nat) (hw : Hw), AllComplete cfg dev fuel hw.xfers n →
      ∃ hw1, cmdReadLoop cfg dev fuel s n i buffer hw
          = some (true, storeFrom buffer i (received dev hw.xfers n), hw1) ∧
        Transfer (List.replicate n 0) hw hw1 := by
  intro n
  induction n with
  | zero =>
    intro i buffer hw _
    exact ⟨hw, rfl, Transfer.refl hw⟩
  | succ n ih =>
    intro i buffer hw hall
    have h0 : Ends cfg dev fuel hw.xfers Outcome.complete := by
      have := hall 0 (by omega)
      rwa [Nat.add_zero] at this
    obtain ⟨hw1, hstep, htr⟩ := cmdReadLoop_step cfg dev fuel s n i buffer hw h0
    have hx : hw1.xfers = hw.xfers + 1 := transfer_xfers htr
    obtain ⟨hw2, hrun, htr2⟩ :=
      ih (i + 1) (buffer.set i (dev.rx hw.xfers % 256)) hw1 (by rw [hx]; exact hall.after_first)
    rw [hx] at hrun
    exact ⟨hw2, hstep.trans hrun, htr.trans htr2⟩

/-- The loop of the command read when exchange `k` is the first to fail:
`k + 1` zero bytes are sent and the handle is unselected. -/
theorem cmdReadLoop_fails (cfg : Config) (dev : Device) (fuel : Nat) (s : Handle) :
    ∀ (n k i : Nat) (buffer : List Nat) (hw : Hw), k < n →
      FirstFailure cfg dev fuel hw.xfers k →
      ∃ buffer1 hw1, cmdReadLoop cfg dev fuel s n i buffer hw
          = some (false, buffer1, unselect s hw1) ∧
        Transfer (List.replicate (k + 1) 0) hw hw1 := by
  intro n
  induction n with
  | zero =>
    intro k i buffer hw hk _
    exact absurd hk (Nat.not_lt_zero _)
  | succ n ih =>
    intro k i buffer hw hk hff
    cases k with
    | zero =>
      obtain ⟨_, o, ho, hends⟩ := hff
      rw [Nat.add_zero] at hends
      obtain ⟨hw1, hrun, htr⟩ := cmdReadLoop_stop cfg dev fuel s n i buffer hw o ho hends
      exact ⟨buffer, hw1, hrun, htr⟩
    | succ k =>
      obtain ⟨hw1, hstep, htr⟩ := cmdReadLoop_step cfg dev fuel s n i buffer hw hff.head
      have hx : hw1.xfers = hw.xfers + 1 := transfer_xfers htr
      obtain ⟨buffer1, hw2, hrun, htr2⟩ :=
        ih k (i + 1) (buffer.set i (dev.rx hw.xfers % 256)) hw1 (by omega)
          (by rw [hx]; exact hff.shift_down)
      exact ⟨buffer1, hw2, hstep.trans hrun, htr.trans htr2⟩

/-! ## Whole transactions -/

theorem select_xfers (s : Handle) (hw : Hw) : (select s hw).xfers = hw.xfers := by
  unfold select
  split <;> rfl

theorem select_invalid (s : Handle) (hw : Hw) (h : s.csValide = false) : select s hw = hw := by
  simp [select, h]

theorem unselect_invalid (s : Handle) (hw : Hw) (h : s.csValide = false) :
    unselect s hw = hw := by
  simp [unselect, h]

/-- The command is the payload loop over its single byte. -/
theorem cmd_eq_loop (cfg : Config) (dev : Device) (fuel : Nat) (s : Handle) (c : Nat) (hw : Hw) :
    cmd cfg dev fuel s c hw = writeLoop cfg dev fuel s [c] (select s hw) := by
  simp only [cmd, writeLoop]

/-- The buffer write is the payload loop over the command byte followed by
the buffer. -/
theorem write_eq_loop (cfg : Config) (dev : Device) (fuel : Nat) (s : Handle) (reg : Nat)
    (buffer : List Nat) (hw : Hw) :
    write cfg dev fuel s reg buffer hw
      = writeLoop cfg dev fuel s (writeCommand s.invertRW reg :: buffer) (select s hw) := by
  simp only [write, writeLoop]

/-- The first exchange of the command read completes: the loop follows. -/
theorem cmdRead_step (cfg : Config) (dev : Device) (fuel : Nat) (s : Handle) (c : Nat)
    (buffer : List Nat) (len : Nat) (hw : Hw) (h : Ends cfg dev fuel hw.xfers Outcome.complete) :
    ∃ hw1, Transfer [c % 256] (select s hw) hw1 ∧ hw1.xfers = hw.xfers + 1 ∧
      cmdRead cfg dev fuel s c buffer len hw =
        match cmdReadLoop cfg dev fuel s len 0 buffer hw1 with
        | none => none
        | some (false, buffer1, hw3) => some (false, buffer1, hw3)
        | some (true, buffer1, hw3) =>
          some (true, buffer1, unselect s (delayMicroseconds 1 hw3)) := by
  have h' : Ends cfg dev fuel (select s hw).xfers Outcome.complete := by rwa [select_xfers]
  obtain ⟨hw1, hex, htr⟩ := exchangeByte_run cfg dev fuel c (select s hw) _ h'
  have hd : decide (Outcome.complete = Outcome.complete) = true := decide_eq_true rfl
  rw [hd] at hex
  refine ⟨hw1, htr, ?_, ?_⟩
  · rw [transfer_xfers htr, select_xfers]
    rfl
  · simp only [cmdRead, hex]

/-- The command read when every exchange completes. -/
theorem cmdRead_complete (cfg : Config) (dev : Device) (fuel : Nat) (s : Handle) (c : Nat)
    (buffer : List Nat) (len : Nat) (hw : Hw)
    (hall : AllComplete cfg dev fuel hw.xfers (len + 1)) :
    ∃ hw1, cmdRead cfg dev fuel s c buffer len hw
        = some (true, storeFrom buffer 0 (received dev (hw.xfers + 1) len), unselect s hw1) ∧
      Transfer (c % 256 :: List.replicate len 0) (select s hw) hw1 := by
  have h0 : Ends cfg dev fuel hw.xfers Outcome.complete := by
    have := hall 0 (by omega)
    rwa [Nat.add_zero] at this
  obtain ⟨hw1, htr, hx, hstep⟩ := cmdRead_step cfg dev fuel s c buffer len hw h0
  obtain ⟨hw2, hrun, htr2⟩ :=
    cmdReadLoop_complete cfg dev fuel s len 0 buffer hw1 (by rw [hx]; exact hall.after_first)
  rw [hx] at hrun
  refine ⟨delayMicroseconds 1 hw2, ?_, ?_⟩
  · rw [hstep, hrun]
  · have h3 := (htr.trans htr2).trans (Transfer.of_emit hw2 (Event.delay 1) rfl)
    simpa [delayMicroseconds] using h3

/-- The command read when exchange `k` is the first to fail. -/
theorem cmdRead_fails (cfg : Config) (dev : Device) (fuel : Nat) (s : Handle) (c : Nat)
    (buffer : List Nat) (len k : Nat) (hw : Hw) (hk : k < len + 1)
    (hff : FirstFailure cfg dev fuel hw.xfers k) :
    ∃ buffer1 hw1, cmdRead cfg dev fuel s c buffer len hw
        = some (false, buffer1, unselect s hw1) ∧
      Transfer (c % 256 :: List.replicate k 0) (select s hw) hw1 := by
  cases k with
  | zero =>
    obtain ⟨_, o, ho, hends⟩ := hff
    rw [Nat.add_zero] at hends
    have h' : Ends cfg dev fuel (select s hw).xfers o := by rwa [select_xfers]
    obtain ⟨hw1, hex, htr⟩ := exchangeByte_run cfg dev fuel c (select s hw) o h'
    have hd : decide (o = Outcome.complete) = false := decide_eq_false ho
    refine ⟨buffer, hw1, ?_, htr⟩
    simp only [cmdRead, hex, hd]
  | succ k =>
    obtain ⟨hw1, htr, hx, hstep⟩ := cmdRead_step cfg dev fuel s c buffer len hw hff.head
    obtain ⟨buffer1, hw2, hrun, htr2⟩ :=
      cmdReadLoop_fails cfg dev fuel s len k 0 buffer hw1 (by omega) (by rw [hx]; exact hff.shift_down)
    refine ⟨buffer1, hw2, ?_, ?_⟩
    · rw [hstep, hrun]
    · have h3 := htr.trans htr2
      simpa [List.replicate_succ] using h3

/-- Selecting, transferring at least one byte and unselecting, on a valid
handle, frames the transfer with the chip-select pin. -/
theorem framed_of_transfer (s : Handle) (hv : s.Valid) (vals : List Nat) (hw hw1 : Hw)
    (hne : vals ≠ []) (htr : Transfer vals (select s hw) hw1) :
    Framed s hw (unselect s hw1) := by
  obtain ⟨hval, hpin⟩ := hv
  obtain ⟨_, _, _, _, _, evs, hlog, hw', honly⟩ := htr
  refine ⟨(hw.load s.csPort &&& not16 (1 <<< s.csPin)) % 256, evs,
    (hw1.load s.csPort ||| (1 <<< s.csPin)) % 256, ?_, testBit_cleared _ _ hpin,
    honly.noGpio, by rw [hw']; exact hne, testBit_raised _ _ hpin, ?_⟩
  · simp only [unselect, hval, if_true, Hw.store, hlog, select, List.append_assoc,
      List.singleton_append, List.cons_append, List.nil_append]
  · simp only [unselect, hval, if_true, Hw.store]

/-- Select and unselect store nothing to the data register and start no
exchange, whatever the handle. -/
theorem sent_of_transfer (s : Handle) (vals : List Nat) (hw hw1 : Hw)
    (htr : Transfer vals (select s hw) hw1) : Sent vals hw (unselect s hw1) := by
  obtain ⟨_, _, _, _, hx, evs, hlog, hw', _⟩ := htr
  rw [select_xfers] at hx
  cases hval : s.csValide with
  | false =>
    rw [unselect_invalid s hw1 hval]
    rw [select_invalid s hw hval] at hlog
    exact ⟨hx, evs, hlog, hw'⟩
  | true =>
    refine ⟨?_, Event.io s.csPort ((hw.load s.csPort &&& not16 (1 <<< s.csPin)) % 256) ::
      (evs ++ [Event.io s.csPort ((hw1.load s.csPort ||| (1 <<< s.csPin)) % 256)]), ?_, ?_⟩
    · simp only [unselect, hval, if_true, Hw.store, hx]
    · simp only [unselect, hval, if_true, Hw.store, hlog, select, List.append_assoc,
        List.singleton_append, List.cons_append, List.nil_append]
    · simp only [spdrWrites, spdrWrites_append, hw', List.append_nil]

/-! ## Summaries of the transactions -/

theorem map_mod_of_bytes (buffer : List Nat) (h : ∀ b ∈ buffer, b < 256) :
    buffer.map (· % 256) = buffer := by
  induction buffer with
  | nil => rfl
  | cons b rest ih =>
    have hb : b % 256 = b := Nat.mod_eq_of_lt (h b (List.mem_cons_self _ _))
    have hrest := ih (fun x hx => h x (List.mem_cons_of_mem _ hx))
    simp only [List.map_cons, hb, hrest]

/-- The payload loop after select sends its list as a frame. -/
theorem writeLoop_ran (cfg : Config) (dev : Device) (fuel : Nat) (s : Handle)
    (bytes : List Nat) (hw : Hw)
    (hdev : AllComplete cfg dev fuel hw.xfers bytes.length ∨
      ∃ k, k < bytes.length ∧ FirstFailure cfg dev fuel hw.xfers k) :
    ∃ r hw', writeLoop cfg dev fuel s bytes (select s hw) = some (r, hw') ∧
      Ran cfg dev fuel s (bytes.map (· % 256)) hw r hw' := by
  rcases hdev with hall | ⟨k, hk, hff⟩
  · obtain ⟨hw1, hrun, htr⟩ :=
      writeLoop_complete cfg dev fuel s bytes (select s hw) (by rwa [select_xfers])
    refine ⟨true, _, hrun, hw1, rfl, Or.inl ⟨rfl, ?_, htr⟩⟩
    rwa [List.length_map]
  · obtain ⟨hw1, hrun, htr⟩ :=
      writeLoop_fails cfg dev fuel s bytes k (select s hw) hk (by rwa [select_xfers])
    refine ⟨false, _, hrun, hw1, rfl, Or.inr ⟨rfl, k, ?_, hff, ?_⟩⟩
    · rwa [List.length_map]
    · rwa [← List.map_take]

theorem cmd_ran (cfg : Config) (dev : Device) (fuel : Nat) (s : Handle) (c : Nat) (hw : Hw)
    (hdev : AllComplete cfg dev fuel hw.xfers 1 ∨
      ∃ k, k < 1 ∧ FirstFailure cfg dev fuel hw.xfers k) :
    ∃ r hw', cmd cfg dev fuel s c hw = some (r, hw') ∧
      Ran cfg dev fuel s [c % 256] hw r hw' := by
  rw [cmd_eq_loop]
  exact writeLoop_ran cfg dev fuel s [c] hw hdev

theorem write_ran (cfg : Config) (dev : Device) (fuel : Nat) (s : Handle) (reg : Nat)
    (buffer : List Nat) (hw : Hw)
    (hdev : AllComplete cfg dev fuel hw.xfers (buffer.length + 1) ∨
      ∃ k, k < buffer.length + 1 ∧ FirstFailure cfg dev fuel hw.xfers k) :
    ∃ r hw', write cfg dev fuel s reg buffer hw = some (r, hw') ∧
      Ran cfg dev fuel s ((writeCommand s.invertRW reg :: buffer).map (· % 256)) hw r hw' := by
  rw [write_eq_loop]
  exact writeLoop_ran cfg dev fuel s (writeCommand s.invertRW reg :: buffer) hw hdev

theorem cmdRead_ran (cfg : Config) (dev : Device) (fuel : Nat) (s : Handle) (c : Nat)
    (buffer : List Nat) (len : Nat) (hw : Hw)
    (hdev : AllComplete cfg dev fuel hw.xfers (len + 1) ∨
      ∃ k, k < len + 1 ∧ FirstFailure cfg dev fuel hw.xfers k) :
    ∃ r buffer1 hw', cmdRead cfg dev fuel s c buffer len hw = some (r, buffer1, hw') ∧
      Ran cfg dev fuel s (c % 256 :: List.replicate len 0) hw r hw' ∧
      (r = true → buffer1 = storeFrom buffer 0 (received dev (hw.xfers + 1) len)) := by
  rcases hdev with hall | ⟨k, hk, hff⟩
  · obtain ⟨hw1, hrun, htr⟩ := cmdRead_complete cfg dev fuel s c buffer len hw hall
    refine ⟨true, _, _, hrun, ⟨hw1, rfl, Or.inl ⟨rfl, ?_, htr⟩⟩, fun _ => rfl⟩
    simpa using hall
  · obtain ⟨buffer1, hw1, hrun, htr⟩ := cmdRead_fails cfg dev fuel s c buffer len k hw hk hff
    refine ⟨false, _, _, hrun, ⟨hw1, rfl, Or.inr ⟨rfl, k, ?_, hff, ?_⟩⟩, fun h => by cases h⟩
    · simpa using hk
    · have hmin : min k len = k := Nat.min_eq_left (by omega)
      simpa [List.take_replicate, hmin] using htr

/-! ## What a summary implies -/

theorem Ran.framed {cfg : Config} {dev : Device} {fuel : Nat} {s : Handle} {frame : List Nat}
    {hw hw' : Hw} {r : Bool} (h : Ran cfg dev fuel s frame hw r hw') (hv : s.Valid)
    (hne : frame ≠ []) : Framed s hw hw' := by
  obtain ⟨hw1, rfl, ⟨_, _, htr⟩ | ⟨_, k, hk, _, htr⟩⟩ := h
  · exact framed_of_transfer s hv frame hw hw1 hne htr
  · refine framed_of_transfer s hv _ hw hw1 ?_ htr
    cases frame with
    | nil => exact absurd rfl hne
    | cons a rest => simp

theorem Ran.of_allComplete {cfg : Config} {dev : Device} {fuel : Nat} {s : Handle}
    {frame : List Nat} {hw hw' : Hw} {r : Bool} (h : Ran cfg dev fuel s frame hw r hw')
    (hall : AllComplete cfg dev fuel hw.xfers frame.length) :
    r = true ∧ Sent frame hw hw' := by
  obtain ⟨hw1, rfl, ⟨hr, _, htr⟩ | ⟨_, k, hk, hff, _⟩⟩ := h
  · exact ⟨hr, sent_of_transfer s frame hw hw1 htr⟩
  · exact absurd hall (hff.not_allComplete hk)

theorem Ran.of_firstFailure {cfg : Config} {dev : Device} {fuel : Nat} {s : Handle}
    {frame : List Nat} {hw hw' : Hw} {r : Bool} {k : Nat}
    (h : Ran cfg dev fuel s frame hw r hw')
    (hff : FirstFailure cfg dev fuel hw.xfers k) (hk : k < frame.length) :
    r = false ∧ Sent (frame.take (k + 1)) hw hw' := by
  obtain ⟨hw1, rfl, ⟨_, hall, _⟩ | ⟨hr, k', _, hff', htr⟩⟩ := h
  · exact absurd hall (hff.not_allComplete hk)
  · have hkk : k = k' := hff.unique hff'
    subst hkk
    exact ⟨hr, sent_of_transfer s _ hw hw1 htr⟩

theorem Ran.result_iff {cfg : Config} {dev : Device} {fuel : Nat} {s : Handle}
    {frame : List Nat} {hw hw' : Hw} {r : Bool} (h : Ran cfg dev fuel s frame hw r hw') :
    r = true ↔ AllComplete cfg dev fuel hw.xfers frame.length := by
  obtain ⟨hw1, _, ⟨hr, hall, _⟩ | ⟨hr, k, hk, hff, _⟩⟩ := h
  · exact ⟨fun _ => hall, fun _ => hr⟩
  · constructor
    · intro h1
      rw [hr] at h1
      cases h1
    · intro hall
      exact absurd hall (hff.not_allComplete hk)

theorem Ran.unframed {cfg : Config} {dev : Device} {fuel : Nat} {s : Handle} {first : Nat}
    {rest : List Nat} {hw hw' : Hw} {r : Bool}
    (h : Ran cfg dev fuel s (first :: rest) hw r hw') (hinv : s.csValide = false) :
    Unframed first hw hw' := by
  obtain ⟨hw1, rfl, hcase⟩ := h
  rw [unselect_invalid s hw1 hinv]
  rw [select_invalid s hw hinv] at hcase
  rcases hcase with ⟨_, _, htr⟩ | ⟨_, k, _, _, htr⟩
  · obtain ⟨hio, hc, hs, _, _, evs, hlog, hwr, honly⟩ := htr
    exact ⟨hio, hc, hs, evs, hlog, honly, by rw [hwr]; rfl⟩
  · obtain ⟨hio, hc, hs, _, _, evs, hlog, hwr, honly⟩ := htr
    exact ⟨hio, hc, hs, evs, hlog, honly, by rw [hwr]; rfl⟩

/-! ## The receive buffer -/

theorem storeFrom_length (bytes : List Nat) :
    ∀ (buffer : List Nat) (i : Nat), (storeFrom buffer i bytes).length = buffer.length := by
  induction bytes with
  | nil => intro buffer i; rfl
  | cons b bs ih =>
    intro buffer i
    rw [storeFrom, ih, List.length_set]

theorem storeFrom_before (bytes : List Nat) :
    ∀ (buffer : List Nat) (i j : Nat), j < i →
      (storeFrom buffer i bytes)[j]? = buffer[j]? := by
  induction bytes with
  | nil => intro buffer i j _; rfl
  | cons b bs ih =>
    intro buffer i j hj
    rw [storeFrom, ih _ _ _ (by omega), List.getElem?_set_ne (by omega)]

theorem storeFrom_get (bytes : List Nat) :
    ∀ (buffer : List Nat) (i t : Nat), i + bytes.length ≤ buffer.length → t < bytes.length →
      (storeFrom buffer i bytes)[i + t]? = bytes[t]? := by
  induction bytes with
  | nil =>
    intro buffer i t _ ht
    exact absurd ht (Nat.not_lt_zero _)
  | cons b bs ih =>
    intro buffer i t hlen ht
    simp only [List.length_cons] at hlen ht
    cases t with
    | zero =>
      simp only [storeFrom, Nat.add_zero, List.getElem?_cons_zero]
      rw [storeFrom_before bs _ _ _ (by omega : i < i + 1)]
      simp only [List.getElem?_set, if_true]
      split
      · rfl
      · omega
    | succ t =>
      rw [storeFrom, show i + (t + 1) = i + 1 + t by omega,
        ih _ _ _ (by rw [List.length_set]; omega) (by omega)]
      simp only [List.getElem?_cons_succ]

theorem received_length (dev : Device) : ∀ (n k0 : Nat), (received dev k0 n).length = n := by
  intro n
  induction n with
  | zero => intro k0; rfl
  | succ n ih => intro k0; simp only [received, List.length_cons, ih]

theorem received_get (dev : Device) :
    ∀ (n k0 t : Nat), t < n → (received dev k0 n)[t]? = some (dev.rx (k0 + t) % 256) := by
  intro n
  induction n with
  | zero => intro k0 t ht; exact absurd ht (Nat.not_lt_zero _)
  | succ n ih =>
    intro k0 t ht
    cases t with
    | zero => simp only [received, List.getElem?_cons_zero, Nat.add_zero]
    | succ t =>
      simp only [received, List.getElem?_cons_succ]
      rw [ih (k0 + 1) t (by omega), show k0 + 1 + t = k0 + (t + 1) by omega]

/-! ## Command bytes -/

theorem writeCommand_mod (inv : Bool) (reg : Nat) :
    writeCommand inv reg % 256 = writeCommand inv reg := by
  unfold writeCommand
  split <;> exact Nat.mod_mod _ _

theorem readCommand_mod (inv : Bool) (reg : Nat) :
    readCommand inv reg % 256 = readCommand inv reg := by
  unfold readCommand
  split <;> exact Nat.mod_mod _ _

set_option maxRecDepth 100000 in
theorem command_bytes_table :
    ∀ reg, reg < 256 →
      writeCommand false reg = reg &&& 0x7F ∧ writeCommand true reg = reg ||| 0x80 ∧
      readCommand false reg = reg ||| 0x80 ∧ readCommand true reg = reg &&& 0x7F ∧
      (reg ||| 0x80) ^^^ (reg &&& 0x7F) = 0x80 ∧
      (reg ||| 0x80) &&& 0x7F = reg &&& 0x7F ∧
      (reg ||| 0x80).testBit 7 = true ∧ (reg &&& 0x7F).testBit 7 = false := by
  decide

/-! ## Sample devices -/

theorem readyDevice_ends (fuel k : Nat) (hf : 0 < fuel) :
    Ends sampleConfig readyDevice fuel k Outcome.complete :=
  ⟨0, hf, by simp only [pollStep, readyDevice]; rfl, fun _ hj => absurd hj (Nat.not_lt_zero _)⟩

theorem readyDevice_allComplete (fuel k0 n : Nat) (hf : 0 < fuel) :
    AllComplete sampleConfig readyDevice fuel k0 n :=
  fun _ _ => readyDevice_ends fuel _ hf

theorem collidingDevice_ends_zero (fuel : Nat) (hf : 0 < fuel) :
    Ends sampleConfig collidingDevice fuel 0 Outcome.complete :=
  ⟨0, hf, by decide, fun _ hj => absurd hj (Nat.not_lt_zero _)⟩

theorem collidingDevice_ends_succ (fuel k : Nat) (hf : 0 < fuel) :
    Ends sampleConfig collidingDevice fuel (k + 1) Outcome.collision := by
  refine ⟨0, hf, ?_, fun _ hj => absurd hj (Nat.not_lt_zero _)⟩
  have h : collidingDevice.status (k + 1) 0 = 0x40 := by
    simp [collidingDevice]
  unfold pollStep
  rw [h]
  rfl

theorem collidingDevice_responsive (fuel : Nat) (hf : 0 < fuel) :
    Responsive sampleConfig collidingDevice fuel := by
  intro k
  cases k with
  | zero => exact ⟨_, collidingDevice_ends_zero fuel hf⟩
  | succ k => exact ⟨_, collidingDevice_ends_succ fuel k hf⟩

theorem collidingDevice_firstFailure (fuel : Nat) (hf : 0 < fuel) :
    FirstFailure sampleConfig collidingDevice fuel 0 1 := by
  refine ⟨?_, Outcome.collision, by decide, collidingDevice_ends_succ fuel 0 hf⟩
  intro j hj
  have : j = 0 := by omega
  subst this
  exact collidingDevice_ends_zero fuel hf

theorem pb2_valid : pb2.Valid := by
  constructor <;> decide

/-! ## The bus initializer -/

set_option maxRecDepth 100000 in
/-- On dividers from 1 to 255 the scan finds the position `k` of the highest
set bit, plus one when the divider is not the power of two `2 ^ k`, that is
when a lower bit is set as well. -/
theorem powerOf_below_256 :
    ∀ d, d < 256 → 1 ≤ d →
      ∃ k : Nat, k < 8 ∧ 2 ^ k ≤ d ∧ d < 2 ^ (k + 1) ∧
        powerOf d = (k : Int) + (if d = 2 ^ k then 0 else 1) := by
  decide

set_option maxRecDepth 100000 in
/-- On dividers from 128 to 255 the scan gives 7 or 8, so that the maximum
divider is chosen, with double speed off. -/
theorem max_divider_below_256 :
    ∀ d, d < 256 → 128 ≤ d →
      7 ≤ powerOf d ∧ spi2xOf (powerOf d) = false ∧ spiSprOf (powerOf d) = 3 := by
  decide

theorem and_bit_mod_256 (d i : Nat) (h : i < 8) : d % 256 &&& 1 <<< i = d &&& 1 <<< i := by
  apply Nat.eq_of_testBit_eq
  intro j
  have h256 : (256 : Nat) = 2 ^ 8 := by norm_num
  rw [h256, Nat.testBit_and, Nat.testBit_and, Nat.testBit_mod_two_pow, Nat.one_shiftLeft,
    Nat.testBit_two_pow]
  by_cases hij : i = j
  · subst hij
    simp [h]
  · simp [hij]

theorem scanDivider_mod_256 (d : Nat) :
    ∀ (n : Nat) (dp : Int), n ≤ 8 → scanDivider d n dp = scanDivider (d % 256) n dp := by
  intro n
  induction n with
  | zero => intro dp _; rfl
  | succ n ih =>
    intro dp hn
    simp only [scanDivider, and_bit_mod_256 d n (by omega), ih _ (by omega : n ≤ 8)]

/-- The scan reads the low eight bits of the divider only. -/
theorem powerOf_mod_256 (d : Nat) : powerOf d = powerOf (d % 256) :=
  scanDivider_mod_256 d 8 (-1) (Nat.le_refl 8)

/-- The two lowest bits of the value stored to SPCR are those of `spi_spr`. -/
theorem spcrValue_low_bits (cfg : Config) : spcrValue cfg &&& 0b11 = spi_spr cfg &&& 0b11 := by
  unfold spcrValue
  have h4 : spi_spr cfg &&& 0b11 < 4 := by
    have := @Nat.and_le_right (spi_spr cfg) 0b11
    omega
  generalize spi_spr cfg &&& 0b11 = f at h4 ⊢
  simp only [Nat.and_one_is_mod]
  rcases Nat.mod_two_eq_zero_or_one cfg.SPI_LSB_FIRST with ha | ha <;>
  rcases Nat.mod_two_eq_zero_or_one cfg.SPI_LEADING_FALLING with hb | hb <;>
  rcases Nat.mod_two_eq_zero_or_one cfg.SPI_LEADING_SETUP with hc | hc <;>
  rw [ha, hb, hc] <;>
  interval_cases f <;> decide

theorem init_fresh_SPCR (cfg : Config) (p : Platform) (hw : Hw) (h : hw.isInit = false) :
    (init cfg p hw).SPCR = spcrValue cfg := by
  simp [init, h]

theorem init_fresh_SPSR_bit (cfg : Config) (p : Platform) (hw : Hw) (h : hw.isInit = false) :
    (init cfg p hw).SPSR.testBit SPI2X = spi2x cfg := by
  simp only [init, h]
  cases h2 : spi2x cfg with
  | false => exact testBit_cleared _ _ (by decide)
  | true => exact testBit_raised _ _ (by decide)

theorem fields_of_power (p : Int) (h1 : 1 ≤ p) (h7 : p < 7) :
    (spi2xOf p = true ↔ p % 2 = 1) ∧
      ((spiSprOf p &&& 0b11 : Nat) : Int) = (if p % 2 = 1 then (p - 1) / 2 else p / 2 - 1) := by
  have hcases : p = 1 ∨ p = 2 ∨ p = 3 ∨ p = 4 ∨ p = 5 ∨ p = 6 := by omega
  rcases hcases with h | h | h | h | h | h <;> subst h <;> decide

set_option maxRecDepth 100000 in
theorem powerOf_range_below_256 : ∀ d, d < 256 → -1 ≤ powerOf d ∧ powerOf d ≤ 8 := by
  decide

/-- The scan leaves `dividerPower` between -1 and 8, whatever the divider. -/
theorem powerOf_range (d : Nat) : -1 ≤ powerOf d ∧ powerOf d ≤ 8 := by
  rw [powerOf_mod_256]
  exact powerOf_range_below_256 _ (Nat.mod_lt _ (by norm_num))

theorem fields_below_7 (p : Int) (hlo : -1 ≤ p) (h7 : p < 7) :
    (spi2xOf p = true ↔ p % 2 = 1) ∧
      ((spiSprOf p &&& 0b11 : Nat) : Int)
        = (if p % 2 = 1 then (p - 1) / 2 else p / 2 - 1) % 4 ∧
      (1 ≤ p → ((spiSprOf p &&& 0b11 : Nat) : Int)
        = (if p % 2 = 1 then (p - 1) / 2 else p / 2 - 1)) ∧
      (p ≤ 0 → spiSprOf p &&& 0b11 = 3) := by
  have hcases : p = -1 ∨ p = 0 ∨ p = 1 ∨ p = 2 ∨ p = 3 ∨ p = 4 ∨ p = 5 ∨ p = 6 := by omega
  rcases hcases with h | h | h | h | h | h | h | h <;> subst h <;> decide

/-! ## Claims -/

/-- C1: on a valid handle, whatever way each byte exchange ends (completion,
collision or timeout), the command, the register write in byte and in buffer
form, the register read in buffer form and the command read all return, and
the events of the call are framed by the chip-select pin: first a store to the
chip-select register with bit `csPin` low, then no GPIO store while the bytes
are stored to the data register, last a store with bit `csPin` high, which is
what the register holds at return, for the result true as for false. -/
theorem chip_select_frames_transaction (cfg : Config) (dev : Device) (fuel : Nat) (s : Handle)
    (hw : Hw) (hv : s.Valid) (hdev : Responsive cfg dev fuel) :
    (∀ c, ∃ r hw', cmd cfg dev fuel s c hw = some (r, hw') ∧ Framed s hw hw') ∧
    (∀ reg val, ∃ r hw', writeByte cfg dev fuel s reg val hw = some (r, hw') ∧
      Framed s hw hw') ∧
    (∀ reg buffer, ∃ r hw', write cfg dev fuel s reg buffer hw = some (r, hw') ∧
      Framed s hw hw') ∧
    (∀ reg buffer len, ∃ r buffer1 hw',
      read cfg dev fuel s reg buffer len hw = some (r, buffer1, hw') ∧ Framed s hw hw') ∧
    (∀ c buffer len, ∃ r buffer1 hw',
      cmdRead cfg dev fuel s c buffer len hw = some (r, buffer1, hw') ∧ Framed s hw hw') := by
  have hloc : ∀ n, AllComplete cfg dev fuel hw.xfers n ∨
      ∃ k, k < n ∧ FirstFailure cfg dev fuel hw.xfers k :=
    fun n => complete_or_firstFailure cfg dev fuel hw.xfers n (fun j _ => hdev (hw.xfers + j))
  have hwrite : ∀ reg buffer, ∃ r hw', write cfg dev fuel s reg buffer hw = some (r, hw') ∧
      Framed s hw hw' := by
    intro reg buffer
    obtain ⟨r, hw', hrun, hran⟩ := write_ran cfg dev fuel s reg buffer hw (hloc _)
    exact ⟨r, hw', hrun, hran.framed hv (by simp)⟩
  have hread : ∀ c buffer len, ∃ r buffer1 hw',
      cmdRead cfg dev fuel s c buffer len hw = some (r, buffer1, hw') ∧ Framed s hw hw' := by
    intro c buffer len
    obtain ⟨r, buffer1, hw', hrun, hran, _⟩ := cmdRead_ran cfg dev fuel s c buffer len hw (hloc _)
    exact ⟨r, buffer1, hw', hrun, hran.framed hv (by simp)⟩
  refine ⟨?_, fun reg val => hwrite reg [val], hwrite, fun reg => hread _, hread⟩
  intro c
  obtain ⟨r, hw', hrun, hran⟩ := cmd_ran cfg dev fuel s c hw (hloc _)
  exact ⟨r, hw', hrun, hran.framed hv (by simp)⟩

/-- Witness of C1: a buffer write on PB2 whose second exchange collides. -/
theorem chip_select_frames_transaction_witness :
    pb2.Valid ∧ Responsive sampleConfig collidingDevice 1 ∧
      ∃ r hw', write sampleConfig collidingDevice 1 pb2 0x10 [0xAA, 0x55] hw0 = some (r, hw') ∧
        Framed pb2 hw0 hw' :=
  ⟨pb2_valid, collidingDevice_responsive 1 (by decide),
    (chip_select_frames_transaction sampleConfig collidingDevice 1 pb2 hw0 pb2_valid
      (collidingDevice_responsive 1 (by decide))).2.2.1 0x10 [0xAA, 0x55]⟩

/-- C2 as stated fails: on a handle that failed validation, with a peripheral
that completes the exchange, the command stores its byte to the SPI data
register and returns true. -/
theorem invalid_handle_command_runs :
    badHandle.csValide = false ∧
      ∃ hw', cmd sampleConfig readyDevice 1 badHandle 0x9F hw0 = some (true, hw') ∧
        spdrWrites hw'.log = [0x9F] := by
  refine ⟨by decide, _, rfl, ?_⟩
  decide

/-- C2, amended: on a handle whose validity flag is false, select and unselect
do nothing, so each transaction (command, register write in byte and buffer
form, register read in buffer form) leaves the GPIO registers, SPCR and SPSR
as they were; but it still runs its byte exchanges: its only stores go to the
data register, the first of them is the command byte, and it returns true
exactly when every exchange of its frame completes. -/
theorem invalid_handle_skips_chip_select_only (cfg : Config) (dev : Device) (fuel : Nat)
    (s : Handle) (hw : Hw) (hinv : s.csValide = false) (hdev : Responsive cfg dev fuel) :
    (∀ c, ∃ r hw', cmd cfg dev fuel s c hw = some (r, hw') ∧ Unframed (c % 256) hw hw' ∧
      (r = true ↔ AllComplete cfg dev fuel hw.xfers 1)) ∧
    (∀ reg val, ∃ r hw', writeByte cfg dev fuel s reg val hw = some (r, hw') ∧
      Unframed (writeCommand s.invertRW reg) hw hw' ∧
      (r = true ↔ AllComplete cfg dev fuel hw.xfers 2)) ∧
    (∀ reg buffer, ∃ r hw', write cfg dev fuel s reg buffer hw = some (r, hw') ∧
      Unframed (writeCommand s.invertRW reg) hw hw' ∧
      (r = true ↔ AllComplete cfg dev fuel hw.xfers (buffer.length + 1))) ∧
    (∀ reg buffer len, ∃ r buffer1 hw',
      read cfg dev fuel s reg buffer len hw = some (r, buffer1, hw') ∧
      Unframed (readCommand s.invertRW reg) hw hw' ∧
      (r = true ↔ AllComplete cfg dev fuel hw.xfers (len + 1))) := by
  have hloc : ∀ n, AllComplete cfg dev fuel hw.xfers n ∨
      ∃ k, k < n ∧ FirstFailure cfg dev fuel hw.xfers k :=
    fun n => complete_or_firstFailure cfg dev fuel hw.xfers n (fun j _ => hdev (hw.xfers + j))
  have hwrite : ∀ reg buffer, ∃ r hw', write cfg dev fuel s reg buffer hw = some (r, hw') ∧
      Unframed (writeCommand s.invertRW reg) hw hw' ∧
      (r = true ↔ AllComplete cfg dev fuel hw.xfers (buffer.length + 1)) := by
    intro reg buffer
    obtain ⟨r, hw', hrun, hran⟩ := write_ran cfg dev fuel s reg buffer hw (hloc _)
    have hiff := hran.result_iff
    simp only [List.map_cons, writeCommand_mod, List.length_cons, List.length_map] at hran hiff
    exact ⟨r, hw', hrun, hran.unframed hinv, hiff⟩
  refine ⟨?_, fun reg val => hwrite reg [val], hwrite, ?_⟩
  · intro c
    obtain ⟨r, hw', hrun, hran⟩ := cmd_ran cfg dev fuel s c hw (hloc _)
    exact ⟨r, hw', hrun, hran.unframed hinv, hran.result_iff⟩
  · intro reg buffer len
    obtain ⟨r, buffer1, hw', hrun, hran, _⟩ :=
      cmdRead_ran cfg dev fuel s (readCommand s.invertRW reg) buffer len hw (hloc _)
    have hiff := hran.result_iff
    simp only [readCommand_mod, List.length_cons, List.length_replicate] at hran hiff
    exact ⟨r, buffer1, hw', hrun, hran.unframed hinv, hiff⟩

/-- Witness of C2, amended: a register write through the invalid handle. -/
theorem invalid_handle_skips_chip_select_only_witness :
    badHandle.csValide = false ∧ Responsive sampleConfig collidingDevice 1 ∧
      ∃ r hw', write sampleConfig collidingDevice 1 badHandle 0x10 [0xAA] hw0 = some (r, hw') ∧
        Unframed (writeCommand badHandle.invertRW 0x10) hw0 hw' ∧
        (r = true ↔ AllComplete sampleConfig collidingDevice 1 hw0.xfers ([0xAA].length + 1)) :=
  ⟨by decide, collidingDevice_responsive 1 (by decide),
    (invalid_handle_skips_chip_select_only sampleConfig collidingDevice 1 badHandle hw0
      (by decide) (collidingDevice_responsive 1 (by decide))).2.2.1 0x10 [0xAA]⟩

/-- C3: for a register address and a buffer of bytes, when every byte
exchange of the buffer write completes, the write returns true and the bytes
stored to the data register are the command byte followed by the buffer, in
order; the command byte is `reg AND 0x7F` when invertRW is false and
`reg OR 0x80` when it is true. -/
theorem write_sends_command_then_buffer (cfg : Config) (dev : Device) (fuel : Nat) (s : Handle)
    (reg : Nat) (buffer : List Nat) (hw : Hw) (hreg : reg < 256)
    (hbytes : ∀ b ∈ buffer, b < 256)
    (hok : AllComplete cfg dev fuel hw.xfers (buffer.length + 1)) :
    ∃ hw', write cfg dev fuel s reg buffer hw = some (true, hw') ∧
      Sent ((if s.invertRW then reg ||| 0x80 else reg &&& 0x7F) :: buffer) hw hw' := by
  obtain ⟨r, hw', hrun, hran⟩ :=
    write_ran cfg dev fuel s reg buffer hw (Or.inl hok)
  simp only [List.map_cons, writeCommand_mod, map_mod_of_bytes buffer hbytes] at hran
  obtain ⟨hr, hsent⟩ := hran.of_allComplete (by simpa using hok)
  subst hr
  refine ⟨hw', hrun, ?_⟩
  have htab := command_bytes_table reg hreg
  cases hinv : s.invertRW with
  | false =>
    rw [hinv, htab.1] at hsent
    simpa using hsent
  | true =>
    rw [hinv, htab.2.1] at hsent
    simpa using hsent

/-- Witness of C3: writing 0xAA, 0x55 to register 0x10 on a ready peripheral. -/
theorem write_sends_command_then_buffer_witness :
    (0x10 : Nat) < 256 ∧ (∀ b ∈ [0xAA, 0x55], b < 256) ∧
      AllComplete sampleConfig readyDevice 1 hw0.xfers ([0xAA, 0x55].length + 1) ∧
      ∃ hw', write sampleConfig readyDevice 1 pb2 0x10 [0xAA, 0x55] hw0 = some (true, hw') ∧
        Sent ((if pb2.invertRW then 0x10 ||| 0x80 else 0x10 &&& 0x7F) :: [0xAA, 0x55]) hw0 hw' :=
  ⟨by decide, by decide, readyDevice_allComplete 1 _ _ (by decide),
    write_sends_command_then_buffer sampleConfig readyDevice 1 pb2 0x10 [0xAA, 0x55] hw0
      (by decide) (by decide) (readyDevice_allComplete 1 _ _ (by decide))⟩

/-- C4: for the command, the buffer write and the buffer read, on any handle
(so on every valid one): if exchange `k` of the transaction, the command byte
being exchange 0, is the first one that fails, by collision or by timeout, the
operation returns false, and the bytes stored to the data register are the
first `k + 1` bytes of its frame and no more: `k + 1` exchanges were made, the
rest of the payload is unsent. -/
theorem first_failure_aborts (cfg : Config) (dev : Device) (fuel : Nat) (s : Handle) (hw : Hw)
    (k : Nat) (hff : FirstFailure cfg dev fuel hw.xfers k) :
    (∀ c, k = 0 → ∃ hw' sent, cmd cfg dev fuel s c hw = some (false, hw') ∧
      Sent sent hw hw' ∧ sent = [c % 256] ∧ hw'.xfers = hw.xfers + 1) ∧
    (∀ reg buffer, k ≤ buffer.length → ∃ hw' sent,
      write cfg dev fuel s reg buffer hw = some (false, hw') ∧ Sent sent hw hw' ∧
      sent = (writeCommand s.invertRW reg :: buffer.map (· % 256)).take (k + 1) ∧
      sent.length = k + 1 ∧ hw'.xfers = hw.xfers + (k + 1)) ∧
    (∀ reg buffer len, k ≤ len → ∃ buffer1 hw' sent,
      read cfg dev fuel s reg buffer len hw = some (false, buffer1, hw') ∧ Sent sent hw hw' ∧
      sent = (readCommand s.invertRW reg :: List.replicate len 0).take (k + 1) ∧
      sent.length = k + 1 ∧ hw'.xfers = hw.xfers + (k + 1)) := by
  refine ⟨?_, ?_, ?_⟩
  · intro c hk
    subst hk
    obtain ⟨r, hw', hrun, hran⟩ :=
      cmd_ran cfg dev fuel s c hw (Or.inr ⟨0, by omega, hff⟩)
    obtain ⟨hr, hsent⟩ := hran.of_firstFailure hff (by simp)
    subst hr
    exact ⟨hw', _, hrun, hsent, rfl, hsent.1⟩
  · intro reg buffer hk
    obtain ⟨r, hw', hrun, hran⟩ :=
      write_ran cfg dev fuel s reg buffer hw (Or.inr ⟨k, by omega, hff⟩)
    simp only [List.map_cons, writeCommand_mod] at hran
    obtain ⟨hr, hsent⟩ := hran.of_firstFailure hff (by simp; omega)
    subst hr
    have hlen : ((writeCommand s.invertRW reg :: buffer.map (· % 256)).take (k + 1)).length
        = k + 1 := by
      simp only [List.length_take, List.length_cons, List.length_map]
      omega
    refine ⟨hw', _, hrun, hsent, rfl, hlen, ?_⟩
    rw [hsent.1, hlen]
  · intro reg buffer len hk
    obtain ⟨r, buffer1, hw', hrun, hran, _⟩ :=
      cmdRead_ran cfg dev fuel s (readCommand s.invertRW reg) buffer len hw
        (Or.inr ⟨k, by omega, hff⟩)
    simp only [readCommand_mod] at hran
    obtain ⟨hr, hsent⟩ := hran.of_firstFailure hff (by simp; omega)
    subst hr
    have hlen : ((readCommand s.invertRW reg :: List.replicate len 0).take (k + 1)).length
        = k + 1 := by
      simp only [List.length_take, List.length_cons, List.length_replicate]
      omega
    refine ⟨buffer1, hw', _, hrun, hsent, rfl, hlen, ?_⟩
    rw [hsent.1, hlen]

/-- Witness of C4: a two-byte write whose exchange 1 (the first payload byte)
collides; the command byte and the first payload byte went out, the second
payload byte did not. -/
theorem first_failure_aborts_witness :
    FirstFailure sampleConfig collidingDevice 1 hw0.xfers 1 ∧
      ∃ hw' sent, write sampleConfig collidingDevice 1 pb2 0x10 [0xAA, 0x55] hw0
          = some (false, hw') ∧ Sent sent hw0 hw' ∧
        sent = (writeCommand pb2.invertRW 0x10 :: [0xAA, 0x55].map (· % 256)).take (1 + 1) ∧
        sent.length = 1 + 1 ∧ hw'.xfers = hw0.xfers + (1 + 1) :=
  ⟨collidingDevice_firstFailure 1 (by decide),
    (first_failure_aborts sampleConfig collidingDevice 1 pb2 hw0 1
      (collidingDevice_firstFailure 1 (by decide))).2.1 0x10 [0xAA, 0x55] (by decide)⟩

/-- C5: for every register address (a byte) and either value of invertRW, the
command bytes of the buffer read and of the buffer write differ in the top bit
only (their XOR is 0x80), both keep the low seven bits of `reg`, and the read
command has the top bit set when invertRW is false and clear when it is
true (the write command the other way round). -/
theorem read_write_commands_differ_in_top_bit (reg : Nat) (hreg : reg < 256) (invertRW : Bool) :
    readCommand invertRW reg ^^^ writeCommand invertRW reg = 0x80 ∧
    readCommand invertRW reg &&& 0x7F = reg &&& 0x7F ∧
    writeCommand invertRW reg &&& 0x7F = reg &&& 0x7F ∧
    (readCommand invertRW reg).testBit 7 = !invertRW ∧
    (writeCommand invertRW reg).testBit 7 = invertRW := by
  obtain ⟨hw0', hw1', hr0, hr1, hx, hlow, hset, hclr⟩ := command_bytes_table reg hreg
  have hlow' : reg &&& 0x7F &&& 0x7F = reg &&& 0x7F := by
    rw [Nat.land_assoc]
    rfl
  cases invertRW with
  | false =>
    rw [hr0, hw0']
    exact ⟨hx, hlow, hlow', hset, hclr⟩
  | true =>
    rw [hr1, hw1']
    exact ⟨by rw [Nat.xor_comm]; exact hx, hlow', hlow, hclr, hset⟩

/-- Witness of C5: register 0x10 without inversion gives read 0x90, write 0x10. -/
theorem read_write_commands_differ_in_top_bit_witness :
    (0x10 : Nat) < 256 ∧
      readCommand false 0x10 ^^^ writeCommand false 0x10 = 0x80 ∧
      readCommand false 0x10 &&& 0x7F = 0x10 &&& 0x7F ∧
      writeCommand false 0x10 &&& 0x7F = 0x10 &&& 0x7F ∧
      (readCommand false 0x10).testBit 7 = !false ∧
      (writeCommand false 0x10).testBit 7 = false :=
  ⟨by decide, read_write_commands_differ_in_top_bit 0x10 (by decide) false⟩

/-- C6: for a command byte and a length `len` within the buffer, when every
byte exchange completes the command read returns true, makes exactly
`len + 1` exchanges, stores `cmd` and then `len` zero bytes to the data
register, and leaves in `buffer[i]`, for every `i < len`, the byte received
in exchange `i + 1` of the call. -/
theorem cmdRead_fills_buffer (cfg : Config) (dev : Device) (fuel : Nat) (s : Handle)
    (c : Nat) (buffer : List Nat) (len : Nat) (hw : Hw) (hc : c < 256)
    (hlen : len ≤ buffer.length) (hok : AllComplete cfg dev fuel hw.xfers (len + 1)) :
    ∃ buffer1 hw', cmdRead cfg dev fuel s c buffer len hw = some (true, buffer1, hw') ∧
      hw'.xfers = hw.xfers + (len + 1) ∧
      Sent (c :: List.replicate len 0) hw hw' ∧
      buffer1.length = buffer.length ∧
      ∀ i, i < len → buffer1[i]? = some (dev.rx (hw.xfers + (i + 1)) % 256) := by
  obtain ⟨r, buffer1, hw', hrun, hran, hbuf⟩ :=
    cmdRead_ran cfg dev fuel s c buffer len hw (Or.inl hok)
  rw [Nat.mod_eq_of_lt hc] at hran
  obtain ⟨hr, hsent⟩ := hran.of_allComplete (by simpa using hok)
  subst hr
  have hb := hbuf rfl
  subst hb
  refine ⟨_, hw', hrun, ?_, hsent, storeFrom_length _ _ _, ?_⟩
  · rw [hsent.1]
    simp
  · intro i hi
    have h1 := storeFrom_get (received dev (hw.xfers + 1) len) buffer 0 i
      (by rw [received_length]; omega) (by rw [received_length]; exact hi)
    rw [Nat.zero_add] at h1
    rw [h1, received_get dev len (hw.xfers + 1) i hi,
      show hw.xfers + 1 + i = hw.xfers + (i + 1) by omega]

/-- Witness of C6: reading two bytes after command 0x9F on a ready
peripheral. -/
theorem cmdRead_fills_buffer_witness :
    (0x9F : Nat) < 256 ∧ 2 ≤ [0, 0].length ∧
      AllComplete sampleConfig readyDevice 1 hw0.xfers (2 + 1) ∧
      ∃ buffer1 hw', cmdRead sampleConfig readyDevice 1 pb2 0x9F [0, 0] 2 hw0
          = some (true, buffer1, hw') ∧
        hw'.xfers = hw0.xfers + (2 + 1) ∧
        Sent (0x9F :: List.replicate 2 0) hw0 hw' ∧
        buffer1.length = [0, 0].length ∧
        ∀ i, i < 2 → buffer1[i]? = some (readyDevice.rx (hw0.xfers + (i + 1)) % 256) :=
  ⟨by decide, by decide, readyDevice_allComplete 1 _ _ (by decide),
    cmdRead_fills_buffer sampleConfig readyDevice 1 pb2 0x9F [0, 0] 2 hw0 (by decide)
      (by decide) (readyDevice_allComplete 1 _ _ (by decide))⟩

/-- C7 (the code departs from the claim): with a 16 MHz clock and a 31.25 kHz
target the divider is 256 = 2 ^ 8, whose highest set bit is bit 8 with no bit
set below it, so that the claim gives p = 8; the scan of the initializer looks
at bits 7 .. 0 only and leaves `dividerPower` at -1. -/
theorem divider_scan_ignores_bits_above_7 :
    divider slowBus = 2 ^ 8 ∧ 1 ≤ divider slowBus ∧ dividerPower slowBus = -1 := by
  decide

/-- C8 as stated fails: with a 16 MHz clock and an 8 MHz target the divider is
1 and the computed p is 0, below 7 and even; the select field stored to SPCR
is 3, while p/2 - 1 is -1. -/
theorem select_field_wraps_at_divider_one :
    divider fastBus = 1 ∧ dividerPower fastBus = 0 ∧
      (init fastBus atmega328p hw0).SPSR.testBit SPI2X = false ∧
      (init fastBus atmega328p hw0).SPCR &&& 0b11 = 3 ∧
      ¬ ((((init fastBus atmega328p hw0).SPCR &&& 0b11 : Nat) : Int)
          = dividerPower fastBus / 2 - 1) := by
  decide

/-- C8, amended: when the computed p is below 7, the initializer sets the
double-speed bit of SPSR exactly when p is odd, and the two-bit select field it
stores to SPCR holds the two low bits of `(p-1)/2` when p is odd and of
`p/2 - 1` when p is even, that is the value modulo 4: the value itself when p
is from 1 to 6, and 3 when p is 0 or -1, where the value is -1; with a 16 MHz
clock and a 4 MHz target the divider is 2, p is 1, double speed is on and the
select field is 0. -/
theorem divider_fields_from_power (cfg : Config) (p : Platform) (hw : Hw)
    (hfresh : hw.isInit = false) (h7 : dividerPower cfg < 7) :
    ((init cfg p hw).SPSR.testBit SPI2X = true ↔ dividerPower cfg % 2 = 1) ∧
    ((((init cfg p hw).SPCR &&& 0b11 : Nat) : Int)
      = (if dividerPower cfg % 2 = 1 then (dividerPower cfg - 1) / 2
          else dividerPower cfg / 2 - 1) % 4) ∧
    (1 ≤ dividerPower cfg →
      (((init cfg p hw).SPCR &&& 0b11 : Nat) : Int)
        = if dividerPower cfg % 2 = 1 then (dividerPower cfg - 1) / 2
          else dividerPower cfg / 2 - 1) ∧
    (dividerPower cfg ≤ 0 → (init cfg p hw).SPCR &&& 0b11 = 3) ∧
    (divider sampleConfig = 2 ∧ dividerPower sampleConfig = 1 ∧
      (init sampleConfig p hw).SPSR.testBit SPI2X = true ∧
      (init sampleConfig p hw).SPCR &&& 0b11 = 0) := by
  obtain ⟨hx, hmod, hexact, hwrap⟩ :=
    fields_below_7 (dividerPower cfg) (powerOf_range (divider cfg)).1 h7
  have hfield : (init cfg p hw).SPCR &&& 0b11 = spiSprOf (dividerPower cfg) &&& 0b11 := by
    rw [init_fresh_SPCR cfg p hw hfresh, spcrValue_low_bits]
    rfl
  refine ⟨?_, ?_, ?_, ?_, by decide, by decide, ?_, ?_⟩
  · rw [init_fresh_SPSR_bit cfg p hw hfresh]
    exact hx
  · rw [hfield]
    exact hmod
  · intro h1
    rw [hfield]
    exact hexact h1
  · intro h0
    rw [hfield]
    exact hwrap h0
  · rw [init_fresh_SPSR_bit sampleConfig p hw hfresh]
    decide
  · rw [init_fresh_SPCR sampleConfig p hw hfresh, spcrValue_low_bits]
    decide

/-- Witness of C8, amended: the 16 MHz / 8 MHz build on a fresh ATmega328P,
where p is 0: double speed stays off and the select field is 3, the two low
bits of -1. -/
theorem divider_fields_from_power_witness :
    hw0.isInit = false ∧ dividerPower fastBus < 7 ∧
      ((init fastBus atmega328p hw0).SPSR.testBit SPI2X = true
        ↔ dividerPower fastBus % 2 = 1) ∧
      ((((init fastBus atmega328p hw0).SPCR &&& 0b11 : Nat) : Int)
        = (if dividerPower fastBus % 2 = 1 then (dividerPower fastBus - 1) / 2
            else dividerPower fastBus / 2 - 1) % 4) :=
  ⟨rfl, by decide,
    (divider_fields_from_power fastBus atmega328p hw0 rfl (by decide)).1,
    (divider_fields_from_power fastBus atmega328p hw0 rfl (by decide)).2.1⟩

/-- C9 (the code departs from the claim): with a 16 MHz clock and a 31 kHz
target the divider is 258, highest set bit 8 with bit 1 set below it, so that
p as the claim defines it is 9, at least 7; the initializer, which scans bits
7 .. 0 only, computes 1, turns double speed on and stores select field 0, the
fastest clock instead of the slowest. -/
theorem slow_target_gets_fast_clock :
    divider slowerBus = 258 ∧ 2 ^ 8 ≤ divider slowerBus ∧ divider slowerBus < 2 ^ 9 ∧
      divider slowerBus ≠ 2 ^ 8 ∧ dividerPower slowerBus = 1 ∧
      (init slowerBus atmega328p hw0).SPSR.testBit SPI2X = true ∧
      (init slowerBus atmega328p hw0).SPCR &&& 0b11 = 0 := by
  decide

/-- C10: the first run of the initializer sets the init flag; from any state
in which the flag is set (the flag is never cleared: begin and chip-select
configuration keep it), a further run returns the state unchanged, so it
stores to no register and logs nothing, and inside begin it leaves exactly
what the chip-select configuration did; running the initializer twice gives
the same state as running it once. -/
theorem init_runs_once (cfg : Config) (p : Platform) (hw : Hw) :
    (init cfg p hw).isInit = true ∧
    init cfg p (init cfg p hw) = init cfg p hw ∧
    (∀ hw2 : Hw, hw2.isInit = true → init cfg p hw2 = hw2) ∧
    (∀ (s : Handle) (hw2 : Hw), hw2.isInit = true →
      (begin cfg p s hw2).isInit = true ∧
      (s.csValide = true → begin cfg p s hw2 = (csConfigure s hw2).2)) := by
  have hflag : ∀ h : Hw, (init cfg p h).isInit = true := by
    intro h
    unfold init
    split
    · assumption
    · rfl
  have hnoop : ∀ hw2 : Hw, hw2.isInit = true → init cfg p hw2 = hw2 := by
    intro hw2 h2
    simp [init, h2]
  refine ⟨hflag hw, hnoop _ (hflag hw), hnoop, ?_⟩
  intro s hw2 h2
  constructor
  · unfold begin
    split
    · unfold printError
      split <;> exact h2
    · exact hflag _
  · intro hval
    have hcfg : (csConfigure s hw2).2.isInit = true := by
      simp [csConfigure, hval, unselect, Hw.store, h2]
    simp only [begin, hval, Bool.not_true, Bool.false_eq_true, if_false]
    exact hnoop _ hcfg

/-- Witness of C10: a second begin, on another handle, after the first run. -/
theorem init_runs_once_witness :
    (init sampleConfig atmega328p hw0).isInit = true ∧
      init sampleConfig atmega328p (init sampleConfig atmega328p hw0)
        = init sampleConfig atmega328p hw0 :=
  ⟨(init_runs_once sampleConfig atmega328p hw0).1,
    (init_runs_once sampleConfig atmega328p hw0).2.2.1 _
      (init_runs_once sampleConfig atmega328p hw0).1⟩

/-! ## Begin on an invalid handle, the single-byte read, validation -/

/-- C11 as stated fails: in a build without the diagnostic sink, begin on a
handle that failed validation returns with nothing handed to any sink. -/
theorem begin_invalid_without_sink_is_silent :
    badHandle.csValide = false ∧ noSink.errorPrint = false ∧
      diags (begin noSink atmega328p badHandle hw0).log = [] := by
  decide

/-- C11, amended: on a handle whose validity flag is false, in every state,
begin stores to no register: the GPIO file (chip-select output and direction
registers and DDRB among it), SPCR, SPSR and SPDR are unchanged and the init
flag is as before; the log gains exactly the one diagnostic "spi:err:badCs"
when the diagnostic sink is defined, and nothing when it is not. -/
theorem begin_invalid_reports_badCs (cfg : Config) (p : Platform) (s : Handle) (hw : Hw)
    (hinv : s.csValide = false) :
    (begin cfg p s hw).io = hw.io ∧ (begin cfg p s hw).SPCR = hw.SPCR ∧
    (begin cfg p s hw).SPSR = hw.SPSR ∧ (begin cfg p s hw).SPDR = hw.SPDR ∧
    (begin cfg p s hw).isInit = hw.isInit ∧
    (begin cfg p s hw).log
      = hw.log ++ (if cfg.errorPrint then [Event.diag ("spi:err:" ++ "badCs")] else []) := by
  have hb : begin cfg p s hw = printError cfg "badCs" hw := by
    simp [begin, hinv]
  rw [hb]
  unfold printError
  cases cfg.errorPrint with
  | false => simp
  | true => simp [Hw.emit]

/-- Witness of C11, amended: begin on the invalid sample handle. -/
theorem begin_invalid_reports_badCs_witness :
    badHandle.csValide = false ∧
      (begin sampleConfig atmega328p badHandle hw0).log
        = hw0.log ++ (if sampleConfig.errorPrint then [Event.diag ("spi:err:" ++ "badCs")]
            else []) :=
  ⟨by decide,
    (begin_invalid_reports_badCs sampleConfig atmega328p badHandle hw0 (by decide)).2.2.2.2.2⟩

/-- C12: for every register address and every device that ends its exchanges,
the single-byte read returns, in the state the length-1 buffer read leaves:
the byte 0xFF when that buffer read fails, and when it succeeds the byte
received in the exchange that follows the command byte; the buffer read
succeeds exactly when both exchanges complete. -/
theorem readByte_value_or_sentinel (cfg : Config) (dev : Device) (fuel : Nat) (s : Handle)
    (reg readValue : Nat) (hw : Hw) (hdev : Responsive cfg dev fuel) :
    ∃ r buffer1 hw', read cfg dev fuel s reg [readValue] 1 hw = some (r, buffer1, hw') ∧
      readByte cfg dev fuel s reg readValue hw
        = some (if r then dev.rx (hw.xfers + 1) % 256 else 0xFF, hw') ∧
      (r = true ↔ AllComplete cfg dev fuel hw.xfers 2) := by
  obtain ⟨r, buffer1, hw', hrun, hran, hbuf⟩ :=
    cmdRead_ran cfg dev fuel s (readCommand s.invertRW reg) [readValue] 1 hw
      (complete_or_firstFailure cfg dev fuel hw.xfers 2 (fun j _ => hdev (hw.xfers + j)))
  have hiff := hran.result_iff
  simp only [List.length_cons, List.length_replicate] at hiff
  refine ⟨r, buffer1, hw', hrun, ?_, hiff⟩
  have hrun' : read cfg dev fuel s reg [readValue] 1 hw = some (r, buffer1, hw') := hrun
  cases r with
  | false => simp only [readByte, hrun']; rfl
  | true =>
    have hb := hbuf rfl
    subst hb
    simp only [readByte, hrun']
    rfl

/-- Witness of C12: a single-byte read whose second exchange collides. -/
theorem readByte_value_or_sentinel_witness :
    Responsive sampleConfig collidingDevice 1 ∧
      ∃ r buffer1 hw', read sampleConfig collidingDevice 1 pb2 0x10 [0] 1 hw0
          = some (r, buffer1, hw') ∧
        readByte sampleConfig collidingDevice 1 pb2 0x10 0 hw0
          = some (if r then collidingDevice.rx (hw0.xfers + 1) % 256 else 0xFF, hw') ∧
        (r = true ↔ AllComplete sampleConfig collidingDevice 1 hw0.xfers 2) :=
  ⟨collidingDevice_responsive 1 (by decide),
    readByte_value_or_sentinel sampleConfig collidingDevice 1 pb2 0x10 0 hw0
      (collidingDevice_responsive 1 (by decide))⟩

theorem checkCs_iff (p : Platform) (s : Handle) :
    checkCs p s = true ↔ s.csPin < 8 ∧ (s.csPort, s.csDdr) ∈ p.banks := by
  simp only [checkCs, Bool.and_eq_true, List.any_eq_true, decide_eq_true_eq, beq_iff_eq]
  constructor
  · rintro ⟨⟨b, hb, h1, h2⟩, hpin⟩
    refine ⟨hpin, ?_⟩
    have : (s.csPort, s.csDdr) = b := Prod.ext h1 h2
    rw [this]
    exact hb
  · rintro ⟨hpin, hmem⟩
    exact ⟨⟨_, hmem, rfl, rfl⟩, hpin⟩

theorem ptrPred_eq (ptr : Nat) (h : ptr < 0x10000) :
    ptrPred ptr = if ptr = 0 then 0xFFFF else ptr - 1 := by
  unfold ptrPred
  split <;> omega

/-- C13: a handle built by the explicit constructor from a pointer of the
16-bit data space keeps the register it was given, takes the address before it
as direction register (0xFFFF before address 0), and reports isConnected
exactly when its bit index is below 8 and its pair of registers is one of the
bank pairs of the platform; for a pair outside the banks validation returns
false and isConnected is false. -/
theorem isConnected_iff_bank_and_pin (p : Platform) (port pin : Nat) (invert : Bool)
    (hport : port < 0x10000) :
    (mkHandle p port pin invert).csPort = port ∧
    (mkHandle p port pin invert).csDdr = (if port = 0 then 0xFFFF else port - 1) ∧
    (mkHandle p port pin invert).csPin = pin % 256 ∧
    (isConnected (mkHandle p port pin invert) = true ↔
      (mkHandle p port pin invert).csPin < 8 ∧
        ((mkHandle p port pin invert).csPort, (mkHandle p port pin invert).csDdr) ∈ p.banks) ∧
    ((port, if port = 0 then 0xFFFF else port - 1) ∉ p.banks →
      checkCs p (mkHandle p port pin invert) = false ∧
        isConnected (mkHandle p port pin invert) = false) := by
  have hddr : (mkHandle p port pin invert).csDdr = (if port = 0 then 0xFFFF else port - 1) :=
    ptrPred_eq port hport
  refine ⟨rfl, hddr, rfl, ?_, ?_⟩
  · show checkCs p _ = true ↔ _
    rw [checkCs_iff]
    rfl
  · intro hnot
    have hmem : ((mkHandle p port pin invert).csPort, (mkHandle p port pin invert).csDdr)
        ∉ p.banks := by
      rw [hddr]
      exact hnot
    have h1 : ¬ checkCs p (mkHandle p port pin invert) = true := by
      rw [checkCs_iff]
      rintro ⟨_, h⟩
      exact hmem h
    have h2 : ¬ isConnected (mkHandle p port pin invert) = true := by
      show ¬ checkCs p _ = true
      rw [checkCs_iff]
      rintro ⟨_, h⟩
      exact hmem h
    exact ⟨by simpa using h1, by simpa using h2⟩

/-- Witness of C13: the data register address 0x4E is no bank of the ATmega328P. -/
theorem isConnected_iff_bank_and_pin_witness :
    (0x4E : Nat) < 0x10000 ∧
      (0x4E, if (0x4E : Nat) = 0 then 0xFFFF else 0x4E - 1) ∉ atmega328p.banks ∧
      checkCs atmega328p (mkHandle atmega328p 0x4E 2 false) = false ∧
      isConnected (mkHandle atmega328p 0x4E 2 false) = false :=
  ⟨by decide, by decide,
    (isConnected_iff_bank_and_pin atmega328p 0x4E 2 false (by decide)).2.2.2.2 (by decide)⟩

/-! ## The logical-pin constructor -/

/-- The mask loop on a mask with the single bit `k` set: it leaves after `k`
shifts with the index advanced by `k`, given fuel for its `k + 1` tests. -/
theorem maskLoop_single_bit :
    ∀ (k extra c : Nat), k < 8 → c + k < 256 →
      maskLoop (k + 1 + extra) (2 ^ k) c = some (c + k) := by
  intro k
  induction k with
  | zero =>
    intro extra c _ _
    rw [show 0 + 1 + extra = extra + 1 by omega]
    simp [maskLoop]
  | succ k ih =>
    intro extra c hk hc
    rw [show k + 1 + 1 + extra = (k + 1 + extra) + 1 by omega]
    have h1 : 2 ^ (k + 1) &&& 1 = 0 := by
      rw [Nat.and_one_is_mod, Nat.pow_succ]
      omega
    have h2 : (2 ^ (k + 1) >>> 1) % 256 = 2 ^ k := by
      rw [Nat.shiftRight_eq_div_pow, Nat.pow_succ]
      have hlt : 2 ^ k < 256 := by
        calc 2 ^ k < 2 ^ 8 := Nat.pow_lt_pow_right (by norm_num) (by omega)
          _ = 256 := by norm_num
      rw [Nat.pow_one, Nat.mul_div_cancel _ (by norm_num : 0 < 2)]
      exact Nat.mod_eq_of_lt hlt
    have h3 : (c + 1) % 256 = c + 1 := Nat.mod_eq_of_lt (by omega)
    simp only [maskLoop, h1, if_true, h2, h3]
    rw [ih extra (c + 1) (by omega) (by omega)]
    congr 1
    omega

/-- C14: for a logical pin that the platform maps to a port (not NOT_A_PIN)
and whose mask has the single bit `k` set, `k < 8`, the logical-pin
constructor returns as soon as it has fuel for the `k + 1` tests of its loop:
the bit index of the handle is `k`, the handle is marked valid, and its
registers are the output and direction registers of the port; the mask
0b00010000 gives index 4. -/
theorem pin_index_is_position_of_mask_bit (t : PinTable) (arduinoPin : Int) (k fuel : Nat)
    (hport : t.digitalPinToPort arduinoPin % 256 ≠ t.NOT_A_PIN)
    (hk : k < 8) (hmask : t.digitalPinToBitMask arduinoPin = 2 ^ k) (hfuel : k < fuel) :
    (∃ h, mkHandleOfPin t fuel arduinoPin = some h ∧ h.csPin = k ∧ h.csValide = true ∧
      h.csPort = t.portOutputRegister (t.digitalPinToPort arduinoPin % 256) ∧
      h.csDdr = t.portModeRegister (t.digitalPinToPort arduinoPin % 256)) ∧
    maskLoop 5 0b00010000 0 = some 4 := by
  refine ⟨?_, by decide⟩
  have hlt : 2 ^ k < 256 := by
    calc 2 ^ k < 2 ^ 8 := Nat.pow_lt_pow_right (by norm_num) hk
      _ = 256 := by norm_num
  have hloop : maskLoop fuel (2 ^ k) 0 = some k := by
    have := maskLoop_single_bit k (fuel - (k + 1)) 0 hk (by omega)
    rwa [show k + 1 + (fuel - (k + 1)) = fuel by omega, Nat.zero_add] at this
  refine ⟨{ csPort := t.portOutputRegister (t.digitalPinToPort arduinoPin % 256),
             csDdr := t.portModeRegister (t.digitalPinToPort arduinoPin % 256),
             csPin := k, csValide := true, invertRW := false }, ?_, rfl, rfl, rfl, rfl⟩
  simp only [mkHandleOfPin, hport, ne_eq, not_false_eq_true, if_true, hmask,
    Nat.mod_eq_of_lt hlt, hloop]

/-- Witness of C14: pin 12 of the Arduino Uno is bit 4 of port B. -/
theorem pin_index_is_position_of_mask_bit_witness :
    unoPins.digitalPinToPort 12 % 256 ≠ unoPins.NOT_A_PIN ∧ 4 < 8 ∧
      unoPins.digitalPinToBitMask 12 = 2 ^ 4 ∧ 4 < 5 ∧
      ∃ h, mkHandleOfPin unoPins 5 12 = some h ∧ h.csPin = 4 ∧ h.csValide = true ∧
        h.csPort = unoPins.portOutputRegister (unoPins.digitalPinToPort 12 % 256) ∧
        h.csDdr = unoPins.portModeRegister (unoPins.digitalPinToPort 12 % 256) :=
  ⟨by decide, by decide, by decide, by decide,
    (pin_index_is_position_of_mask_bit unoPins 12 4 5 (by decide) (by decide) (by decide)
      (by decide)).1⟩

/-! ## The wait loop, poll by poll -/

set_option maxRecDepth 100000 in
theorem flag_masks_table :
    ∀ y, y < 256 →
      (decide (y &&& 0xC0 &&& (1 <<< WCOL) ≠ 0) = y.testBit WCOL) ∧
      (decide (y &&& 0xC0 &&& (1 <<< SPIF) ≠ 0) = y.testBit SPIF) := by
  decide

theorem testBit_mod_256 (x b : Nat) (hb : b < 8) : (x % 256).testBit b = x.testBit b := by
  have h256 : (256 : Nat) = 2 ^ 8 := by norm_num
  rw [h256, Nat.testBit_mod_two_pow]
  simp [hb]

theorem wcol_mask_iff (dev : Device) (k i : Nat) :
    dev.status k i % 256 &&& 0xC0 &&& (1 <<< WCOL) ≠ 0 ↔ dev.wcol k i = true := by
  have h := (flag_masks_table (dev.status k i % 256) (Nat.mod_lt _ (by norm_num))).1
  rw [testBit_mod_256 _ _ (by decide)] at h
  unfold Device.wcol
  rw [← h, decide_eq_true_eq]

theorem spif_mask_iff (dev : Device) (k i : Nat) :
    dev.status k i % 256 &&& 0xC0 &&& (1 <<< SPIF) ≠ 0 ↔ dev.spif k i = true := by
  have h := (flag_masks_table (dev.status k i % 256) (Nat.mod_lt _ (by norm_num))).2
  rw [testBit_mod_256 _ _ (by decide)] at h
  unfold Device.spif
  rw [← h, decide_eq_true_eq]

/-- What a poll makes the wait loop do, read off the two flags and the elapsed
time. -/
theorem pollStep_eq (cfg : Config) (dev : Device) (k i : Nat) :
    pollStep cfg dev k i =
      if dev.wcol k i = true then some Outcome.collision
      else if dev.spif k i = true then some Outcome.complete
      else if dev.elapsed k i < cfg.SPI_TIMEOUT_US then none
      else some Outcome.expired := by
  unfold pollStep
  simp only [wcol_mask_iff, spif_mask_iff, Device.elapsed]

theorem pollLog_snoc (dev : Device) (k : Nat) :
    ∀ (n i : Nat), pollLog dev k i (n + 1)
      = Event.poll (dev.status k i % 256) :: pollLog dev k (i + 1) n := by
  intro n i
  rfl

theorem pollLog_length (dev : Device) (k : Nat) :
    ∀ (n i : Nat), (pollLog dev k i n).length = n := by
  intro n
  induction n with
  | zero => intro i; rfl
  | succ n ih => intro i; simp only [pollLog, List.length_cons, ih]

theorem diags_append (a b : List Event) : diags (a ++ b) = diags a ++ diags b := by
  induction a with
  | nil => rfl
  | cons e es ih => cases e <;> simp [diags, ih]

theorem diags_pollLog (dev : Device) (k : Nat) :
    ∀ (n i : Nat), diags (pollLog dev k i n) = [] := by
  intro n
  induction n with
  | zero => intro i; rfl
  | succ n ih => intro i; simp only [pollLog, diags, ih]

/-- The wait loop, with its log: when the device ends the exchange with
outcome `o` at poll `j`, the loop started at poll `i ≤ j` logs the polls
`i .. j` and no other, then the timeout message if it left by timeout. -/
theorem waitLoop_log (cfg : Config) (dev : Device) (o : Outcome) (j : Nat) :
    ∀ (fuel i : Nat) (hw : Hw), i ≤ j → j < i + fuel →
      pollStep cfg dev hw.xfers j = some o →
      (∀ j', i ≤ j' → j' < j → pollStep cfg dev hw.xfers j' = none) →
      ∃ hw', waitLoop cfg dev (dev.clock hw.xfers 0 % 2 ^ 32) fuel i hw
            = some (decide (o = Outcome.complete), hw')
          ∧ hw'.xfers = hw.xfers
          ∧ hw'.log = hw.log ++ (pollLog dev hw.xfers i (j + 1 - i) ++ timeoutDiag cfg o) := by
  intro fuel
  induction fuel with
  | zero =>
    intro i hw hij hj _ _
    omega
  | succ fuel ih =>
    intro i hw hij hj hend hbefore
    rw [waitLoop_succ]
    rcases Nat.eq_or_lt_of_le hij with heq | hlt
    · subst heq
      rw [hend, show i + 1 - i = 1 by omega]
      cases o
      · exact ⟨_, rfl, rfl, by simp [Hw.emit, pollLog, timeoutDiag]⟩
      · exact ⟨_, rfl, rfl, by simp [Hw.emit, pollLog, timeoutDiag]⟩
      · refine ⟨_, rfl, ?_, ?_⟩
        · unfold printError
          split <;> rfl
        · unfold printError
          cases hsink : cfg.errorPrint <;> simp [Hw.emit, pollLog, timeoutDiag, hsink]
    · rw [hbefore i (Nat.le_refl i) hlt]
      obtain ⟨hw', hrun, hx, hlog⟩ :=
        ih (i + 1) (hw.emit (Event.poll (dev.status hw.xfers i % 256))) hlt (by omega)
          hend (fun j' h1 h2 => hbefore j' (by omega) h2)
      refine ⟨hw', hrun, hx, ?_⟩
      rw [hlog, show j + 1 - i = (j + 1 - (i + 1)) + 1 by omega, pollLog_snoc]
      simp [Hw.emit]

/-- The byte exchange, with its log: the store of the byte to the data
register, the polls up to the one that ends the exchange, and the timeout
message if it ended by timeout; the data register then holds the byte
received, which is returned. -/
theorem exchangeByte_log (cfg : Config) (dev : Device) (fuel val : Nat) (hw : Hw)
    (o : Outcome) (j : Nat) (hj : j < fuel) (h : EndsAt cfg dev hw.xfers j o) :
    ∃ hw', exchangeByte cfg dev fuel val hw
          = some (decide (o = Outcome.complete), dev.rx hw.xfers % 256, hw')
        ∧ hw'.SPDR = dev.rx hw.xfers % 256
        ∧ hw'.log = hw.log ++ Event.spdr (val % 256) ::
            (pollLog dev hw.xfers 0 (j + 1) ++ timeoutDiag cfg o) := by
  obtain ⟨hend, hbefore⟩ := h
  obtain ⟨hw2, hrun, hx, hlog⟩ :=
    waitLoop_log cfg dev o j fuel 0
      { hw with SPDR := val % 256, log := hw.log ++ [Event.spdr (val % 256)] }
      (Nat.zero_le j) (by omega) hend (fun j' _ h2 => hbefore j' h2)
  refine ⟨{ hw2 with SPDR := dev.rx hw2.xfers % 256, xfers := hw2.xfers + 1 }, ?_, ?_, ?_⟩
  · simp only [exchangeByte, waitTimeout]
    rw [hrun]
    simp only [hx]
  · simp only [hx]
  · simp only [hlog, Nat.sub_zero, List.append_assoc, List.singleton_append]

/-- C15: in a byte exchange that reaches poll `i` (no earlier poll showed a
flag or found the timeout elapsed): if poll `i` shows the collision flag, with
or without the completion flag, the exchange returns false there, having made
the polls 0 .. i and no other and logged no diagnostic, whatever the elapsed
time; if poll `i` shows the completion flag and not the collision flag, the
exchange returns true with the byte the data register then holds. -/
theorem first_flag_decides_exchange (cfg : Config) (dev : Device) (fuel val : Nat) (hw : Hw)
    (i : Nat) (hi : i < fuel)
    (hbefore : ∀ j, j < i → dev.wcol hw.xfers j = false ∧ dev.spif hw.xfers j = false ∧
      dev.elapsed hw.xfers j < cfg.SPI_TIMEOUT_US) :
    (dev.wcol hw.xfers i = true →
      ∃ hw', exchangeByte cfg dev fuel val hw = some (false, dev.rx hw.xfers % 256, hw') ∧
        hw'.log = hw.log ++ Event.spdr (val % 256) :: pollLog dev hw.xfers 0 (i + 1) ∧
        diags hw'.log = diags hw.log) ∧
    (dev.wcol hw.xfers i = false → dev.spif hw.xfers i = true →
      ∃ hw', exchangeByte cfg dev fuel val hw = some (true, dev.rx hw.xfers % 256, hw') ∧
        hw'.SPDR = dev.rx hw.xfers % 256 ∧
        hw'.log = hw.log ++ Event.spdr (val % 256) :: pollLog dev hw.xfers 0 (i + 1) ∧
        diags hw'.log = diags hw.log) := by
  have hnone : ∀ j, j < i → pollStep cfg dev hw.xfers j = none := by
    intro j hj
    obtain ⟨h1, h2, h3⟩ := hbefore j hj
    rw [pollStep_eq]
    simp [h1, h2, h3]
  have hd : ∀ l : List Event, diags (l ++ Event.spdr (val % 256) ::
      pollLog dev hw.xfers 0 (i + 1)) = diags l := by
    intro l
    rw [diags_append]
    simp only [diags, diags_pollLog, List.append_nil]
  constructor
  · intro hw1
    have hend : EndsAt cfg dev hw.xfers i Outcome.collision := by
      refine ⟨?_, hnone⟩
      rw [pollStep_eq]
      simp [hw1]
    obtain ⟨hw', hrun, _, hlog⟩ := exchangeByte_log cfg dev fuel val hw _ i hi hend
    simp only [timeoutDiag, List.append_nil] at hlog
    exact ⟨hw', hrun, hlog, by rw [hlog, hd]⟩
  · intro hw1 hs1
    have hend : EndsAt cfg dev hw.xfers i Outcome.complete := by
      refine ⟨?_, hnone⟩
      rw [pollStep_eq]
      simp [hw1, hs1]
    obtain ⟨hw', hrun, hspdr, hlog⟩ := exchangeByte_log cfg dev fuel val hw _ i hi hend
    simp only [timeoutDiag, List.append_nil] at hlog
    exact ⟨hw', hrun, hspdr, hlog, by rw [hlog, hd]⟩

/-- Witness of C15: both flags appear at the third poll; the exchange returns
false after three polls. -/
theorem first_flag_decides_exchange_witness :
    (2 < 3) ∧
      (∀ j, j < 2 → lateCollisionDevice.wcol hw0.xfers j = false ∧
        lateCollisionDevice.spif hw0.xfers j = false ∧
        lateCollisionDevice.elapsed hw0.xfers j < sampleConfig.SPI_TIMEOUT_US) ∧
      lateCollisionDevice.wcol hw0.xfers 2 = true ∧
      ∃ hw', exchangeByte sampleConfig lateCollisionDevice 3 0x9F hw0
          = some (false, lateCollisionDevice.rx hw0.xfers % 256, hw') ∧
        hw'.log = hw0.log ++ Event.spdr (0x9F % 256) ::
          pollLog lateCollisionDevice hw0.xfers 0 (2 + 1) ∧
        diags hw'.log = diags hw0.log :=
  ⟨by decide, by decide, by decide,
    (first_flag_decides_exchange sampleConfig lateCollisionDevice 3 0x9F hw0 2 (by decide)
      (by decide)).1 (by decide)⟩

/-- C16 as stated fails: in a build without the diagnostic sink, an exchange
that no flag ends leaves by timeout after three polls, returns false, and no
timeout diagnostic is handed to any sink. -/
theorem timeout_without_sink_is_silent :
    noSink.errorPrint = false ∧
      ∃ hw', exchangeByte noSink silentDevice 3 0 hw0 = some (false, 0, hw') ∧
        hw'.log = [Event.spdr 0, Event.poll 0, Event.poll 0, Event.poll 0] ∧
        diags hw'.log = [] := by
  refine ⟨rfl, _, rfl, ?_, ?_⟩ <;> decide

/-- C16, amended: in a byte exchange whose polls never show the completion or
the collision flag, with a counter that advances far enough for the elapsed
time (counter minus start, in unsigned 32-bit arithmetic) to reach the timeout
bound after some poll, let `n` be the first such poll: with fuel for `n + 1`
polls the exchange makes the polls 0 .. n, so at least one, and no other,
returns false, and hands the sink the timeout message exactly once, after the
last poll, when the sink is defined, and nothing when it is not. -/
theorem timeout_at_first_expiry (cfg : Config) (dev : Device) (val : Nat) (hw : Hw)
    (hquiet : ∀ i, dev.wcol hw.xfers i = false ∧ dev.spif hw.xfers i = false)
    (hadv : ∃ m, cfg.SPI_TIMEOUT_US ≤ dev.elapsed hw.xfers m) :
    ∃ n, cfg.SPI_TIMEOUT_US ≤ dev.elapsed hw.xfers n ∧
      (∀ j, j < n → dev.elapsed hw.xfers j < cfg.SPI_TIMEOUT_US) ∧
      ∀ fuel, n < fuel →
        ∃ hw', exchangeByte cfg dev fuel val hw = some (false, dev.rx hw.xfers % 256, hw') ∧
          hw'.log = hw.log ++ Event.spdr (val % 256) ::
            (pollLog dev hw.xfers 0 (n + 1) ++
              (if cfg.errorPrint then [Event.diag ("spi:err:" ++ "timeout")] else [])) ∧
          diags hw'.log = diags hw.log ++
            (if cfg.errorPrint then ["spi:err:" ++ "timeout"] else []) := by
  refine ⟨Nat.find hadv, Nat.find_spec hadv, ?_, ?_⟩
  · intro j hj
    exact Nat.lt_of_not_le (Nat.find_min hadv hj)
  · intro fuel hfuel
    have hend : EndsAt cfg dev hw.xfers (Nat.find hadv) Outcome.expired := by
      constructor
      · rw [pollStep_eq]
        simp [(hquiet _).1, (hquiet _).2, Nat.not_lt.mpr (Nat.find_spec hadv)]
      · intro j hj
        rw [pollStep_eq]
        simp [(hquiet _).1, (hquiet _).2, Nat.lt_of_not_le (Nat.find_min hadv hj)]
    obtain ⟨hw', hrun, _, hlog⟩ := exchangeByte_log cfg dev fuel val hw _ _ hfuel hend
    simp only [timeoutDiag] at hlog
    refine ⟨hw', hrun, hlog, ?_⟩
    rw [hlog, diags_append]
    cases hsink : cfg.errorPrint <;> simp [diags, diags_append, diags_pollLog]

theorem silentDevice_quiet (k i : Nat) :
    silentDevice.wcol k i = false ∧ silentDevice.spif k i = false := by
  simp [Device.wcol, Device.spif, silentDevice]

/-- Witness of C16, amended: the silent peripheral with the sink defined. -/
theorem timeout_at_first_expiry_witness :
    (∀ i, silentDevice.wcol hw0.xfers i = false ∧ silentDevice.spif hw0.xfers i = false) ∧
      (∃ m, sampleConfig.SPI_TIMEOUT_US ≤ silentDevice.elapsed hw0.xfers m) ∧
      ∃ n, sampleConfig.SPI_TIMEOUT_US ≤ silentDevice.elapsed hw0.xfers n ∧
        (∀ j, j < n → silentDevice.elapsed hw0.xfers j < sampleConfig.SPI_TIMEOUT_US) ∧
        ∀ fuel, n < fuel →
          ∃ hw', exchangeByte sampleConfig silentDevice fuel 0 hw0
              = some (false, silentDevice.rx hw0.xfers % 256, hw') ∧
            hw'.log = hw0.log ++ Event.spdr (0 % 256) ::
              (pollLog silentDevice hw0.xfers 0 (n + 1) ++
                (if sampleConfig.errorPrint then [Event.diag ("spi:err:" ++ "timeout")]
                  else [])) ∧
            diags hw'.log = diags hw0.log ++
              (if sampleConfig.errorPrint then ["spi:err:" ++ "timeout"] else []) :=
  ⟨fun i => silentDevice_quiet _ i, ⟨2, by decide⟩,
    timeout_at_first_expiry sampleConfig silentDevice 0 hw0 (fun i => silentDevice_quiet _ i)
      ⟨2, by decide⟩⟩

/-! ## Register bits -/

theorem load_store (hw : Hw) (addr v a : Nat) :
    (hw.store addr v).load a = if a = addr then v % 256 else hw.load a := by
  unfold Hw.store Hw.load
  by_cases h : a = addr
  · simp [h]
  · simp [h]

theorem load_lt (hw : Hw) (a : Nat) : hw.load a < 256 :=
  Nat.mod_lt _ (by norm_num)

theorem testBit_high_of_lt_256 (x j : Nat) (hx : x < 256) (hj : 8 ≤ j) : x.testBit j = false := by
  apply Nat.testBit_lt_two_pow
  calc x < 256 := hx
    _ = 2 ^ 8 := by norm_num
    _ ≤ 2 ^ j := Nat.pow_le_pow_right (by norm_num) hj

theorem testBit_or_mod (x m j : Nat) (hj : j < 8) :
    ((x ||| m) % 256).testBit j = (x.testBit j || m.testBit j) := by
  rw [testBit_mod_256 _ _ hj, Nat.testBit_or]

theorem testBit_raised_other (x pin j : Nat) (hx : x < 256) (hne : j ≠ pin) :
    ((x ||| (1 <<< pin)) % 256).testBit j = x.testBit j := by
  by_cases hj : j < 8
  · rw [testBit_or_mod _ _ _ hj, Nat.one_shiftLeft, Nat.testBit_two_pow]
    have : ¬ pin = j := fun h => hne h.symm
    simp [this]
  · rw [testBit_high_of_lt_256 _ _ (Nat.mod_lt _ (by norm_num)) (by omega),
      testBit_high_of_lt_256 _ _ hx (by omega)]

theorem testBit_cleared_other (x pin j : Nat) (hx : x < 256) (hne : j ≠ pin) :
    ((x &&& not16 (1 <<< pin)) % 256).testBit j = x.testBit j := by
  by_cases hj : j < 8
  · have h16 : (0xFFFF : Nat) = 2 ^ 16 - 1 := by norm_num
    rw [testBit_mod_256 _ _ hj, Nat.testBit_and, not16, Nat.testBit_xor, h16,
      Nat.testBit_two_pow_sub_one, Nat.one_shiftLeft, Nat.testBit_two_pow]
    have h1 : j < 16 := by omega
    have h2 : ¬ pin = j := fun h => hne h.symm
    simp [h1, h2]
  · rw [testBit_high_of_lt_256 _ _ (Nat.mod_lt _ (by norm_num)) (by omega),
      testBit_high_of_lt_256 _ _ hx (by omega)]

theorem OnlyBit.same (addr pin : Nat) (hw : Hw) : OnlyBit addr pin hw hw :=
  fun _ _ _ => rfl

theorem OnlyBit.then {addr pin : Nat} {hw hw1 hw2 : Hw}
    (h1 : OnlyBit addr pin hw hw1) (h2 : OnlyBit addr pin hw1 hw2) : OnlyBit addr pin hw hw2 :=
  fun a j h => (h2 a j h).trans (h1 a j h)

theorem OnlyBit.of_io_eq {addr pin : Nat} {hw hw1 : Hw} (h : hw1.io = hw.io) :
    OnlyBit addr pin hw hw1 := by
  intro a j _
  unfold Hw.load
  rw [h]

theorem select_onlyBit (s : Handle) (hw : Hw) : OnlyBit s.csPort s.csPin hw (select s hw) := by
  intro a j h
  unfold select
  split
  · rw [load_store]
    split
    · next ha =>
      subst ha
      rcases h with h | h
      · exact absurd rfl h
      · exact testBit_cleared_other _ _ _ (load_lt hw _) h
    · rfl
  · rfl

theorem unselect_onlyBit (s : Handle) (hw : Hw) :
    OnlyBit s.csPort s.csPin hw (unselect s hw) := by
  intro a j h
  unfold unselect
  split
  · rw [load_store]
    split
    · next ha =>
      subst ha
      rcases h with h | h
      · exact absurd rfl h
      · exact testBit_raised_other _ _ _ (load_lt hw _) h
    · rfl
  · rfl

theorem Ran.onlyBit {cfg : Config} {dev : Device} {fuel : Nat} {s : Handle} {frame : List Nat}
    {hw hw' : Hw} {r : Bool} (h : Ran cfg dev fuel s frame hw r hw') :
    OnlyBit s.csPort s.csPin hw hw' := by
  obtain ⟨hw1, rfl, hcase⟩ := h
  have hio : hw1.io = (select s hw).io := by
    rcases hcase with ⟨_, _, htr⟩ | ⟨_, _, _, _, htr⟩
    · exact htr.1
    · exact htr.1
  exact ((select_onlyBit s hw).then (OnlyBit.of_io_eq hio)).then (unselect_onlyBit s hw1)

/-- C20: on a valid handle, select, unselect and every transaction (command,
register write in byte and buffer form, register read, command read, whatever
way the exchanges end) leave every bit of every GPIO register as it was,
except bit `csPin` of the chip-select output register; chip-select
configuration leaves every bit as it was except bit `csPin` of the direction
register and of the output register, so that no other bit of the direction
register changes. -/
theorem only_chip_select_bit_changes (cfg : Config) (dev : Device) (fuel : Nat) (s : Handle)
    (hw : Hw) (hv : s.Valid) (hdev : Responsive cfg dev fuel) :
    OnlyBit s.csPort s.csPin hw (select s hw) ∧
    OnlyBit s.csPort s.csPin hw (unselect s hw) ∧
    (∀ c, ∃ r hw', cmd cfg dev fuel s c hw = some (r, hw') ∧
      OnlyBit s.csPort s.csPin hw hw') ∧
    (∀ reg val, ∃ r hw', writeByte cfg dev fuel s reg val hw = some (r, hw') ∧
      OnlyBit s.csPort s.csPin hw hw') ∧
    (∀ reg buffer, ∃ r hw', write cfg dev fuel s reg buffer hw = some (r, hw') ∧
      OnlyBit s.csPort s.csPin hw hw') ∧
    (∀ reg buffer len, ∃ r buffer1 hw',
      read cfg dev fuel s reg buffer len hw = some (r, buffer1, hw') ∧
      OnlyBit s.csPort s.csPin hw hw') ∧
    (∀ c buffer len, ∃ r buffer1 hw',
      cmdRead cfg dev fuel s c buffer len hw = some (r, buffer1, hw') ∧
      OnlyBit s.csPort s.csPin hw hw') ∧
    (∀ a j, j ≠ s.csPin ∨ (a ≠ s.csDdr ∧ a ≠ s.csPort) →
      ((csConfigure s hw).2.load a).testBit j = (hw.load a).testBit j) := by
  have hloc : ∀ n, AllComplete cfg dev fuel hw.xfers n ∨
      ∃ k, k < n ∧ FirstFailure cfg dev fuel hw.xfers k :=
    fun n => complete_or_firstFailure cfg dev fuel hw.xfers n (fun j _ => hdev (hw.xfers + j))
  have hwrite : ∀ reg buffer, ∃ r hw', write cfg dev fuel s reg buffer hw = some (r, hw') ∧
      OnlyBit s.csPort s.csPin hw hw' := by
    intro reg buffer
    obtain ⟨r, hw', hrun, hran⟩ := write_ran cfg dev fuel s reg buffer hw (hloc _)
    exact ⟨r, hw', hrun, hran.onlyBit⟩
  have hread : ∀ c buffer len, ∃ r buffer1 hw',
      cmdRead cfg dev fuel s c buffer len hw = some (r, buffer1, hw') ∧
      OnlyBit s.csPort s.csPin hw hw' := by
    intro c buffer len
    obtain ⟨r, buffer1, hw', hrun, hran, _⟩ := cmdRead_ran cfg dev fuel s c buffer len hw (hloc _)
    exact ⟨r, buffer1, hw', hrun, hran.onlyBit⟩
  refine ⟨select_onlyBit s hw, unselect_onlyBit s hw, ?_, fun reg val => hwrite reg [val],
    hwrite, fun reg => hread _, hread, ?_⟩
  · intro c
    obtain ⟨r, hw', hrun, hran⟩ := cmd_ran cfg dev fuel s c hw (hloc _)
    exact ⟨r, hw', hrun, hran.onlyBit⟩
  · intro a j h
    have hval := hv.1
    simp only [csConfigure, hval, if_true]
    have hstep1 : ∀ (hwx : Hw),
        ((hwx.store s.csDdr (hwx.load s.csDdr ||| (1 <<< s.csPin))).load a).testBit j
          = (hwx.load a).testBit j := by
      intro hwx
      rw [load_store]
      split
      · next ha =>
        subst ha
        rcases h with h | h
        · exact testBit_raised_other _ _ _ (load_lt hwx _) h
        · exact absurd rfl h.1
      · rfl
    have hstep2 : ∀ (hwx : Hw), ((unselect s hwx).load a).testBit j = (hwx.load a).testBit j := by
      intro hwx
      simp only [unselect, hval, if_true]
      rw [load_store]
      split
      · next ha =>
        subst ha
        rcases h with h | h
        · exact testBit_raised_other _ _ _ (load_lt hwx _) h
        · exact absurd rfl h.2
      · rfl
    rw [hstep2, hstep1]

/-- Witness of C20: a buffer write on PB2 whose second exchange collides. -/
theorem only_chip_select_bit_changes_witness :
    pb2.Valid ∧ Responsive sampleConfig collidingDevice 1 ∧
      ∃ r hw', write sampleConfig collidingDevice 1 pb2 0x10 [0xAA, 0x55] hw0 = some (r, hw') ∧
        OnlyBit pb2.csPort pb2.csPin hw0 hw' :=
  ⟨pb2_valid, collidingDevice_responsive 1 (by decide),
    (only_chip_select_bit_changes sampleConfig collidingDevice 1 pb2 hw0 pb2_valid
      (collidingDevice_responsive 1 (by decide))).2.2.2.2.1 0x10 [0xAA, 0x55]⟩

/-! ## Begin on a valid handle -/

theorem store_or_keeps_bit (hw : Hw) (addr m a j : Nat) (hj : j < 8)
    (h : (hw.load a).testBit j = true) :
    ((hw.store addr (hw.load addr ||| m)).load a).testBit j = true := by
  rw [load_store]
  split
  · next ha =>
    subst ha
    rw [testBit_or_mod _ _ _ hj, h]
    rfl
  · exact h

theorem store_or_sets_bit (hw : Hw) (addr pin : Nat) (hpin : pin < 8) :
    ((hw.store addr (hw.load addr ||| (1 <<< pin))).load addr).testBit pin = true := by
  rw [load_store, if_pos rfl]
  exact testBit_raised _ _ hpin

theorem store_diags (hw : Hw) (addr v : Nat) : diags (hw.store addr v).log = diags hw.log := by
  simp [Hw.store, diags_append, diags]

theorem init_keeps_bit (cfg : Config) (p : Platform) (hw : Hw) (a j : Nat) (hj : j < 8)
    (h : (hw.load a).testBit j = true) : ((init cfg p hw).load a).testBit j = true := by
  unfold init
  split
  · exact h
  · exact store_or_keeps_bit hw p.DDRB p.spiOut a j hj h

theorem init_sets_flag (cfg : Config) (p : Platform) (hw : Hw) : (init cfg p hw).isInit = true := by
  unfold init
  split
  · assumption
  · rfl

theorem init_diags (cfg : Config) (p : Platform) (hw : Hw) :
    diags (init cfg p hw).log = diags hw.log := by
  unfold init
  split
  · rfl
  · simp [Hw.store, diags_append, diags]

/-- C18: for every valid handle and every state, after begin bit `csPin` of
the direction register is 1 and bit `csPin` of the output register is 1, the
init flag of the bus is set, and the diagnostics are those there were before:
none has been handed to the sink. -/
theorem begin_configures_chip_select (cfg : Config) (p : Platform) (s : Handle) (hw : Hw)
    (hv : s.Valid) :
    ((begin cfg p s hw).load s.csDdr).testBit s.csPin = true ∧
    ((begin cfg p s hw).load s.csPort).testBit s.csPin = true ∧
    (begin cfg p s hw).isInit = true ∧
    diags (begin cfg p s hw).log = diags hw.log := by
  obtain ⟨hval, hpin⟩ := hv
  have hb : begin cfg p s hw
      = init cfg p (unselect s (hw.store s.csDdr (hw.load s.csDdr ||| (1 <<< s.csPin)))) := by
    simp [begin, csConfigure, hval]
  have hu : ∀ hwx : Hw, unselect s hwx
      = hwx.store s.csPort (hwx.load s.csPort ||| (1 <<< s.csPin)) := by
    intro hwx
    simp [unselect, hval]
  rw [hb, hu]
  refine ⟨?_, ?_, init_sets_flag _ _ _, ?_⟩
  · exact init_keeps_bit _ _ _ _ _ hpin
      (store_or_keeps_bit _ _ _ _ _ hpin (store_or_sets_bit hw s.csDdr s.csPin hpin))
  · exact init_keeps_bit _ _ _ _ _ hpin (store_or_sets_bit _ s.csPort s.csPin hpin)
  · rw [init_diags, store_diags, store_diags]

/-- Witness of C18: begin on PB2 from the power-on state. -/
theorem begin_configures_chip_select_witness :
    pb2.Valid ∧
      ((begin sampleConfig atmega328p pb2 hw0).load pb2.csDdr).testBit pb2.csPin = true ∧
      ((begin sampleConfig atmega328p pb2 hw0).load pb2.csPort).testBit pb2.csPin = true ∧
      (begin sampleConfig atmega328p pb2 hw0).isInit = true ∧
      diags (begin sampleConfig atmega328p pb2 hw0).log = diags hw0.log :=
  ⟨pb2_valid, begin_configures_chip_select sampleConfig atmega328p pb2 hw0 pb2_valid⟩

/-! ## The programmed clock ratio -/

set_option maxRecDepth 100000 in
theorem ratio_table :
    ∀ d, d < 129 → 2 ≤ d →
      0 ≤ powerOf d ∧
      clockRatio (spi2xOf (powerOf d)) (spiSprOf (powerOf d) &&& 0b11) = 2 ^ (powerOf d).toNat ∧
      d ≤ 2 ^ (powerOf d).toNat ∧ 2 ^ (powerOf d).toNat < 2 * d := by
  decide

theorem ratio_of_init (cfg : Config) (p : Platform) (hw : Hw) (hfresh : hw.isInit = false) :
    (init cfg p hw).ratio
      = clockRatio (spi2xOf (powerOf (divider cfg))) (spiSprOf (powerOf (divider cfg)) &&& 0b11) := by
  unfold Hw.ratio
  rw [init_fresh_SPSR_bit cfg p hw hfresh, init_fresh_SPCR cfg p hw hfresh, spcrValue_low_bits]
  rfl

/-- C19: reading the programmed pair by the hardware table, when the
initializer runs with a divider from 2 to 128 the ratio it programs is 2 to
the power `dividerPower`, it is at least the divider, and every power of two
that is at least the divider is at least this ratio; with a divider of 1 the
ratio programmed is 128. -/
theorem programmed_ratio_is_next_power_of_two (cfg : Config) (p : Platform) (hw : Hw)
    (hfresh : hw.isInit = false) :
    (2 ≤ divider cfg → divider cfg ≤ 128 →
      0 ≤ dividerPower cfg ∧
      (init cfg p hw).ratio = 2 ^ (dividerPower cfg).toNat ∧
      divider cfg ≤ (init cfg p hw).ratio ∧
      ∀ m, divider cfg ≤ 2 ^ m → (init cfg p hw).ratio ≤ 2 ^ m) ∧
    (divider cfg = 1 → (init cfg p hw).ratio = 128) := by
  rw [ratio_of_init cfg p hw hfresh]
  constructor
  · intro h2 h128
    obtain ⟨h0, hr, hge, hlt⟩ := ratio_table (divider cfg) (by omega) h2
    refine ⟨h0, hr, by rw [hr]; exact hge, ?_⟩
    intro m hm
    rw [hr]
    have h1 : 2 ^ (powerOf (divider cfg)).toNat < 2 ^ (m + 1) := by
      calc 2 ^ (powerOf (divider cfg)).toNat < 2 * divider cfg := hlt
        _ ≤ 2 * 2 ^ m := Nat.mul_le_mul_left 2 hm
        _ = 2 ^ (m + 1) := by rw [Nat.pow_succ, Nat.mul_comm]
    have h2' : (powerOf (divider cfg)).toNat < m + 1 :=
      (Nat.pow_lt_pow_iff_right (by norm_num)).mp h1
    exact Nat.pow_le_pow_right (by norm_num) (Nat.le_of_lt_succ h2')
  · intro h1
    rw [h1]
    decide

/-- Witness of C19: the 16 MHz / 4 MHz build (divider 2) on a fresh bus. -/
theorem programmed_ratio_is_next_power_of_two_witness :
    hw0.isInit = false ∧ 2 ≤ divider sampleConfig ∧ divider sampleConfig ≤ 128 ∧
      (init sampleConfig atmega328p hw0).ratio = 2 ^ (dividerPower sampleConfig).toNat :=
  ⟨rfl, by decide, by decide,
    ((programmed_ratio_is_next_power_of_two sampleConfig atmega328p hw0 rfl).1 (by decide)
      (by decide)).2.1⟩

/-! ## Round trip through the mock peripheral -/

theorem storeFrom_full (bytes buffer : List Nat) (h : bytes.length = buffer.length) :
    storeFrom buffer 0 bytes = bytes := by
  apply List.ext_getElem?
  intro i
  by_cases hi : i < bytes.length
  · have := storeFrom_get bytes buffer 0 i (by omega) hi
    rwa [Nat.zero_add] at this
  · rw [List.getElem?_eq_none (by rw [storeFrom_length]; omega),
      List.getElem?_eq_none (by omega)]

theorem received_eq (dev : Device) (k0 : Nat) (l : List Nat)
    (h : ∀ i, i < l.length → dev.rx (k0 + i) % 256 = l.getD i 0) :
    received dev k0 l.length = l := by
  apply List.ext_getElem?
  intro i
  by_cases hi : i < l.length
  · rw [received_get dev _ _ _ hi, h i hi, List.getD_eq_getElem?_getD,
      List.getElem?_eq_getElem hi]
    rfl
  · rw [List.getElem?_eq_none (by rw [received_length]; omega),
      List.getElem?_eq_none (by omega)]

/-- The mock that has served the write frame for `reg` answers exchange
`i + 1` of the read frame for `reg` with byte `i` of the payload written. -/
theorem mock_echoes_written (m : Mock) (invertRW : Bool) (reg : Nat) (hreg : reg < 256)
    (buffer : List Nat) (i : Nat) (hi : i < buffer.length) :
    ((m.serve invertRW (writeCommand invertRW reg :: buffer)).1.serve invertRW
        (readCommand invertRW reg :: List.replicate buffer.length 0)).2.getD (i + 1) 0
      = buffer.getD i 0 := by
  obtain ⟨hw0', hw1', hr0, hr1, _, hlow, hset, hclr⟩ := command_bytes_table reg hreg
  have hlow' : reg &&& 0x7F &&& 0x7F = reg &&& 0x7F := by
    rw [Nat.land_assoc]
    rfl
  cases invertRW with
  | false =>
    rw [hw0', hr0]
    simp [Mock.serve, hset, hclr, hlow, hlow', hi]
  | true =>
    rw [hw1', hr1]
    simp [Mock.serve, hset, hclr, hlow, hlow', hi]

/-- C17: with a device that completes every exchange and answers the read
frame as the mock peripheral does after it was sent the write frame (it has
latched the payload under the register and echoes it in order), for every
register address, polarity flag and buffer of bytes: the buffer write returns
true having sent the command byte and the buffer, and the buffer read of as
many bytes from the same register returns true, having sent the read command
and zeros, with a read buffer equal to the written one. -/
theorem write_then_read_round_trip (cfg : Config) (dev : Device) (fuel : Nat) (s : Handle)
    (reg : Nat) (buffer scratch : List Nat) (hw : Hw) (m : Mock)
    (hreg : reg < 256) (hbytes : ∀ b ∈ buffer, b < 256)
    (hscratch : scratch.length = buffer.length)
    (hok : AllComplete cfg dev fuel hw.xfers (2 * (buffer.length + 1)))
    (hmock : ∀ i, i < buffer.length →
      dev.rx (hw.xfers + (buffer.length + 1) + (i + 1)) % 256
        = ((m.serve s.invertRW (writeCommand s.invertRW reg :: buffer)).1.serve s.invertRW
            (readCommand s.invertRW reg :: List.replicate buffer.length 0)).2.getD (i + 1) 0) :
    ∃ hw1 hw2,
      write cfg dev fuel s reg buffer hw = some (true, hw1) ∧
      Sent (writeCommand s.invertRW reg :: buffer) hw hw1 ∧
      read cfg dev fuel s reg scratch buffer.length hw1 = some (true, buffer, hw2) ∧
      Sent (readCommand s.invertRW reg :: List.replicate buffer.length 0) hw1 hw2 := by
  have hok1 : AllComplete cfg dev fuel hw.xfers (buffer.length + 1) :=
    fun j hj => hok j (by omega)
  obtain ⟨r, hw1, hrun, hran⟩ := write_ran cfg dev fuel s reg buffer hw (Or.inl hok1)
  simp only [List.map_cons, writeCommand_mod, map_mod_of_bytes buffer hbytes] at hran
  obtain ⟨hr, hsent⟩ := hran.of_allComplete (by simpa using hok1)
  subst hr
  have hx : hw1.xfers = hw.xfers + (buffer.length + 1) := by
    rw [hsent.1]
    simp
  have hok2 : AllComplete cfg dev fuel hw1.xfers (buffer.length + 1) := by
    intro j hj
    have := hok (buffer.length + 1 + j) (by omega)
    rwa [hx, Nat.add_assoc]
  obtain ⟨r2, buffer1, hw2, hrun2, hran2, hbuf⟩ :=
    cmdRead_ran cfg dev fuel s (readCommand s.invertRW reg) scratch buffer.length hw1
      (Or.inl hok2)
  simp only [readCommand_mod] at hran2
  obtain ⟨hr2, hsent2⟩ := hran2.of_allComplete (by simpa using hok2)
  subst hr2
  have hb := hbuf rfl
  have hrecv : received dev (hw1.xfers + 1) buffer.length = buffer := by
    apply received_eq
    intro i hi
    rw [hx, show hw.xfers + (buffer.length + 1) + 1 + i
        = hw.xfers + (buffer.length + 1) + (i + 1) by omega, hmock i hi]
    exact mock_echoes_written m s.invertRW reg hreg buffer i hi
  rw [hrecv, storeFrom_full buffer scratch hscratch.symm] at hb
  subst hb
  exact ⟨hw1, hw2, hrun, hsent, hrun2, hsent2⟩

theorem mockDevice_allComplete (m : Mock) (invertRW : Bool) (frames : List (List Nat))
    (fuel k0 n : Nat) (hf : 0 < fuel) :
    AllComplete sampleConfig (mockDevice m invertRW frames) fuel k0 n :=
  fun _ _ => ⟨0, hf, by simp only [pollStep, mockDevice]; rfl,
    fun _ hj => absurd hj (Nat.not_lt_zero _)⟩

/-- Witness of C17: the mock is sent the write frame 0x10, 0xAA, 0x55 and the
read frame 0x90, 0, 0; writing 0xAA, 0x55 to register 0x10 and reading two
bytes from it yields 0xAA, 0x55. -/
theorem write_then_read_round_trip_witness :
    (0x10 : Nat) < 256 ∧ (∀ b ∈ [0xAA, 0x55], b < 256) ∧ [0, 0].length = [0xAA, 0x55].length ∧
      ∃ hw1 hw2,
        write sampleConfig (mockDevice emptyMock false [[0x10, 0xAA, 0x55], [0x90, 0, 0]]) 1
            pb2 0x10 [0xAA, 0x55] hw0 = some (true, hw1) ∧
        Sent (writeCommand pb2.invertRW 0x10 :: [0xAA, 0x55]) hw0 hw1 ∧
        read sampleConfig (mockDevice emptyMock false [[0x10, 0xAA, 0x55], [0x90, 0, 0]]) 1
            pb2 0x10 [0, 0] [0xAA, 0x55].length hw1 = some (true, [0xAA, 0x55], hw2) ∧
        Sent (readCommand pb2.invertRW 0x10 :: List.replicate [0xAA, 0x55].length 0) hw1 hw2 :=
  ⟨by decide, by decide, rfl,
    write_then_read_round_trip sampleConfig
      (mockDevice emptyMock false [[0x10, 0xAA, 0x55], [0x90, 0, 0]]) 1 pb2 0x10
      [0xAA, 0x55] [0, 0] hw0 emptyMock (by decide) (by decide) rfl
      (mockDevice_allComplete _ _ _ 1 _ _ (by decide)) (by decide)⟩


end SpiBus
